import Mathlib

/-!
Verification of the ampm two-player match server (`src/server.js`).

The embedding is shallow: JavaScript objects become Lean structures,
the JS object maps keyed by player id become association lists with the
JS insertion/update semantics (`objGet` / `objSet`), `Date.now()` values
become explicit `now : Nat` parameters on the events that read the clock,
and `Math.random()` in `pickRandomItemType` becomes an oracle
`ItemType` stream indexed by the global item counter `itemSeq` (exactly
one draw happens per `mkItemId`, so the indexing is faithful).  Client
stage numbers are modelled as `Option ℚ`: `none` is a non-finite JS
number (`Number.isFinite` fails), and for finite doubles `Math.floor`
agrees with the rational floor.  Websocket identity is modelled by the
player id (each connection owns exactly one ws and one player object);
`send` drops the message when the recipient's channel is not open, as in
the source.
-/

/-- Server constants from the top of `server.js`. -/
def MATCH_DURATION_MS : Nat := 60000

def ITEM_COOLDOWN_MS : Nat := 8000

def ORB_DURATION_MS : Nat := 3000

def SMOKE_DURATION_MS : Nat := 2000

def ITEM_STAGE_INTERVAL : Int := 5

def INVENTORY_MAX : Nat := 2

/-- The three item kinds of `ITEM_POOL`. -/
inductive ItemType where
  | orb
  | smoke
  | shield
deriving DecidableEq, Repr

/-- An inventory item: `{ id: mkItemId(), type: pickRandomItemType() }`.
The id is the value of the global `itemSeq` counter at creation. -/
structure Item where
  id : Nat
  type : ItemType
deriving DecidableEq, Repr

/-- Reasons carried by `inventory_update` messages. -/
inductive Reason where
  | grant
  | sync
  | consume
  | shield_consumed
deriving DecidableEq, Repr

/-- Server-to-client messages (section 6 of the design). -/
inductive Msg where
  | waiting
  | match_start (roomId playerId : Nat) (scores : List (Nat × Nat)) (endAt : Nat)
  | score_update (scores : List (Nat × Nat))
  | inventory_update (items : List Item) (reason : Reason)
  | item_applied (actor : Nat) (typeName : ItemType) (targetId : Option Nat)
      (effectUntil : Option Nat) (blocked : Bool)
  | match_end (scores : List (Nat × Nat)) (endAt : Nat)
  | opponent_left
deriving DecidableEq, Repr

/-- Reading a key of a JS object map (`obj[k]`): first (unique) matching
key, `none` when absent. -/
def objGet {α : Type} (l : List (Nat × α)) (k : Nat) : Option α :=
  (l.find? (fun e => e.1 == k)).map (fun e => e.2)

/-- Writing a key of a JS object map (`obj[k] = v`): replaces the value
of an existing key in place (keys are unique in every object the server
builds, so first-match replacement is property assignment), otherwise
appends the new key in insertion order. -/
def objSet {α : Type} : List (Nat × α) → Nat → α → List (Nat × α)
  | [], k, v => [(k, v)]
  | e :: t, k, v => if e.1 == k then (k, v) :: t else e :: objSet t k v

/-- The mutable per-player match state seeded by `beginMatch`.
`orbUntil` is the dynamically added field `me.orbUntil` (absent until
the first orb use).  Stage counters are JS numbers that hold integers
here, so they are `Int`. -/
structure PState where
  inventory : List Item
  nextGrantStage : Int
  lastItemUsedAt : Nat
  lastItemUsedStage : Int
  shieldOn : Bool
  stageReached : Int
  orbUntil : Option Nat
deriving DecidableEq, Repr

/-- Initial `PlayerMatchState` from `beginMatch`. -/
def initPState : PState :=
  { inventory := []
    nextGrantStage := ITEM_STAGE_INTERVAL
    lastItemUsedAt := 0
    lastItemUsedStage := 0
    shieldOn := false
    stageReached := 1
    orbUntil := none }

/-- One bounded unrolling of the
`while (st.stageReached >= st.nextGrantStage)` loop of
`maybeGrantItems`: the guard is re-checked before every iteration
exactly as in the source, and `fuel` only bounds the number of
iterations (each iteration advances `nextGrantStage` by 5, so the
loop terminates; `grantLoop` below supplies enough fuel, and
`grantLoopF_stable` shows any sufficient fuel computes the same
result).  `o` is the random item-type stream, `seq` the global
`itemSeq` counter.  Returns the updated state, the new counter and the
number of items granted. -/
def grantLoopF (o : Nat → ItemType) : Nat → Nat → PState → PState × Nat × Nat
  | 0, seq, st => (st, seq, 0)
  | fuel + 1, seq, st =>
    if st.stageReached ≥ st.nextGrantStage then
      if st.inventory.length < INVENTORY_MAX then
        let st1 : PState :=
          { st with
            inventory := st.inventory ++ [{ id := seq, type := o seq }]
            nextGrantStage := st.nextGrantStage + ITEM_STAGE_INTERVAL }
        let r := grantLoopF o fuel (seq + 1) st1
        (r.1, r.2.1, r.2.2 + 1)
      else
        grantLoopF o fuel seq { st with nextGrantStage := st.nextGrantStage + ITEM_STAGE_INTERVAL }
    else
      (st, seq, 0)

/-- The grant loop with enough fuel for all its iterations. -/
def grantLoop (o : Nat → ItemType) (seq : Nat) (st : PState) : PState × Nat × Nat :=
  grantLoopF o (st.stageReached + ITEM_STAGE_INTERVAL - st.nextGrantStage).toNat seq st

theorem grantLoopF_stable (o : Nat → ItemType) :
    ∀ (f1 f2 seq : Nat) (st : PState),
      (st.stageReached + ITEM_STAGE_INTERVAL - st.nextGrantStage).toNat ≤ 5 * f1 →
      (st.stageReached + ITEM_STAGE_INTERVAL - st.nextGrantStage).toNat ≤ 5 * f2 →
      grantLoopF o f1 seq st = grantLoopF o f2 seq st := by
  intro f1
  induction f1 with
  | zero =>
      intro f2 seq st h1 h2
      have hcond : ¬ st.stageReached ≥ st.nextGrantStage := by
        simp only [ITEM_STAGE_INTERVAL] at h1
        omega
      cases f2 with
      | zero => rfl
      | succ m =>
          show (st, seq, 0) = grantLoopF o (m + 1) seq st
          rw [grantLoopF]
          simp [hcond]
  | succ k ih =>
      intro f2 seq st h1 h2
      cases f2 with
      | zero =>
          have hcond : ¬ st.stageReached ≥ st.nextGrantStage := by
            simp only [ITEM_STAGE_INTERVAL] at h2
            omega
          show grantLoopF o (k + 1) seq st = (st, seq, 0)
          rw [grantLoopF]
          simp [hcond]
      | succ m =>
          rw [grantLoopF, grantLoopF]
          by_cases hcond : st.stageReached ≥ st.nextGrantStage
          · simp only [if_pos hcond]
            have hm : ((st.stageReached + ITEM_STAGE_INTERVAL -
                (st.nextGrantStage + ITEM_STAGE_INTERVAL)).toNat ≤ 5 * k) ∧
                ((st.stageReached + ITEM_STAGE_INTERVAL -
                (st.nextGrantStage + ITEM_STAGE_INTERVAL)).toNat ≤ 5 * m) := by
              simp only [ITEM_STAGE_INTERVAL] at h1 h2 ⊢
              omega
            by_cases hroomy : st.inventory.length < INVENTORY_MAX
            · simp only [if_pos hroomy]
              rw [ih m (seq + 1) _ hm.1 hm.2]
            · simp only [if_neg hroomy]
              exact ih m seq _ hm.1 hm.2
          · simp only [if_neg hcond]

/-- The state change of `handleStageReached` for a finite stage number
`q`: coerce with `Math.max(1, Math.floor(n))`, raise `stageReached`,
then run the grant loop. -/
def handleStageCore (o : Nat → ItemType) (seq : Nat) (st : PState) (q : ℚ) :
    PState × Nat × Nat :=
  let stageInt : Int := max 1 ⌊q⌋
  grantLoop o seq { st with stageReached := max st.stageReached stageInt }

/-- A room object from `beginMatch`.  `players` holds the player ids of
the referenced player objects (`room.players`), in order; `scores` and
`states` are the JS object maps keyed by player id. -/
structure Room where
  rid : Nat
  players : List Nat
  scores : List (Nat × Nat)
  states : List (Nat × PState)
  endAt : Nat
deriving DecidableEq, Repr

/-- `send(ws, msg)`: delivers only when the channel is open.  `isOpen`
reports each player's `ws.readyState === OPEN`. -/
def sendTo (isOpen : Nat → Bool) (pid : Nat) (msg : Msg) : List (Nat × Msg) :=
  if isOpen pid then [(pid, msg)] else []

/-- `broadcast(room, msg)`: `room.players.forEach((p) => send(p.ws, msg))`. -/
def broadcastTo (isOpen : Nat → Bool) (players : List Nat) (msg : Msg) :
    List (Nat × Msg) :=
  players.flatMap (fun q => sendTo isOpen q msg)

/-- Replaces `room.states[pid]`. -/
def setState (room : Room) (pid : Nat) (st : PState) : Room :=
  { room with states := objSet room.states pid st }

/-- `handleFound` from the point where the room has been found:
ignore after `endAt`, otherwise increment the caller's score and
broadcast the full score map. -/
def handleFound (isOpen : Nat → Bool) (room : Room) (pid : Nat) (now : Nat) :
    Room × List (Nat × Msg) :=
  if now ≥ room.endAt then (room, [])
  else
    let sc := objSet room.scores pid ((objGet room.scores pid).getD 0 + 1)
    let room1 := { room with scores := sc }
    (room1, broadcastTo isOpen room1.players (Msg.score_update sc))

/-- `maybeGrantItems(room, player)`: runs the grant loop on the
player's state and privately sends `inventory_update` tagged `grant`
when at least one item was added, else `sync`. -/
def maybeGrantItems (isOpen : Nat → Bool) (o : Nat → ItemType) (seq : Nat)
    (room : Room) (pid : Nat) : Room × Nat × List (Nat × Msg) :=
  match objGet room.states pid with
  | none => (room, seq, [])
  | some st =>
      let r := grantLoop o seq st
      (setState room pid r.1, r.2.1,
        sendTo isOpen pid (Msg.inventory_update r.1.inventory
          (if r.2.2 > 0 then Reason.grant else Reason.sync)))

/-- `handleStageReached` from the point where the room has been found.
`stageNo` is `none` when `Number(stageNo)` is not finite. -/
def handleStageReached (isOpen : Nat → Bool) (o : Nat → ItemType) (seq : Nat)
    (room : Room) (pid : Nat) (stageNo : Option ℚ) : Room × Nat × List (Nat × Msg) :=
  match objGet room.states pid with
  | none => (room, seq, [])
  | some st =>
      match stageNo with
      | none => (room, seq, [])
      | some q =>
          let stageInt : Int := max 1 ⌊q⌋
          let room1 := setState room pid { st with stageReached := max st.stageReached stageInt }
          maybeGrantItems isOpen o seq room1 pid

/-- `handleUseItem` from the point where the room has been found: the
four silent-failure guards, removal of the first inventory item whose
id matches, timestamp/stage bookkeeping, and the per-type effect. -/
def handleUseItem (isOpen : Nat → Bool) (room : Room) (pid : Nat)
    (itemId : Nat) (now : Nat) : Room × List (Nat × Msg) :=
  if now ≥ room.endAt then (room, [])
  else if room.endAt - now < 3000 then (room, [])
  else
    match objGet room.states pid with
    | none => (room, [])
    | some me =>
        if now - me.lastItemUsedAt < ITEM_COOLDOWN_MS then (room, [])
        else if me.lastItemUsedStage = me.stageReached then (room, [])
        else
          match me.inventory.find? (fun x => x.id == itemId) with
          | none => (room, [])
          | some item =>
              let me1 : PState :=
                { me with
                  inventory := me.inventory.eraseP (fun x => x.id == itemId)
                  lastItemUsedAt := now
                  lastItemUsedStage := me.stageReached }
              match item.type with
              | ItemType.orb =>
                  let me2 := { me1 with orbUntil := some (now + ORB_DURATION_MS) }
                  let room1 := setState room pid me2
                  (room1,
                    broadcastTo isOpen room1.players
                      (Msg.item_applied pid ItemType.orb none (some (now + ORB_DURATION_MS)) false)
                    ++ sendTo isOpen pid (Msg.inventory_update me2.inventory Reason.consume))
              | ItemType.smoke =>
                  match room.players.find? (fun q => !(q == pid)) with
                  | none => (setState room pid me1, [])
                  | some target =>
                      match objGet room.states target with
                      | some ts =>
                          if ts.shieldOn then
                            let ts1 := { ts with shieldOn := false }
                            let room1 := setState (setState room pid me1) target ts1
                            (room1,
                              broadcastTo isOpen room1.players
                                (Msg.item_applied pid ItemType.smoke (some target) none true)
                              ++ sendTo isOpen target
                                  (Msg.inventory_update ts1.inventory Reason.shield_consumed)
                              ++ sendTo isOpen pid
                                  (Msg.inventory_update me1.inventory Reason.consume))
                          else
                            let room1 := setState room pid me1
                            (room1,
                              broadcastTo isOpen room1.players
                                (Msg.item_applied pid ItemType.smoke (some target)
                                  (some (now + SMOKE_DURATION_MS)) false)
                              ++ sendTo isOpen pid
                                  (Msg.inventory_update me1.inventory Reason.consume))
                      | none =>
                          let room1 := setState room pid me1
                          (room1,
                            broadcastTo isOpen room1.players
                              (Msg.item_applied pid ItemType.smoke (some target)
                                (some (now + SMOKE_DURATION_MS)) false)
                            ++ sendTo isOpen pid
                                (Msg.inventory_update me1.inventory Reason.consume))
              | ItemType.shield =>
                  let me2 := { me1 with shieldOn := true }
                  let room1 := setState room pid me2
                  (room1,
                    broadcastTo isOpen room1.players
                      (Msg.item_applied pid ItemType.shield (some pid) none false)
                    ++ sendTo isOpen pid (Msg.inventory_update me2.inventory Reason.consume))

/-- A connected player object: id, channel liveness (`ws.readyState ===
OPEN`), and the mutable `roomId` field (`''` becomes `none`). -/
structure SPlayer where
  pid : Nat
  wsOpen : Bool
  roomId : Option Nat
deriving DecidableEq, Repr

/-- The whole mutable server state: the single waiting slot, the
`rooms` map (insertion-ordered, unique `rid` keys), the player objects,
the set of pending deadline timers, the trace of delivered messages,
and the three id counters. -/
structure ServerState where
  waiting : Option Nat
  rooms : List Room
  players : List SPlayer
  timers : List Nat
  outbox : List (Nat × Msg)
  playerSeq : Nat
  roomSeq : Nat
  itemSeq : Nat
deriving DecidableEq, Repr

/-- The state right after server start. -/
def initState : ServerState :=
  { waiting := none, rooms := [], players := [], timers := [], outbox := []
    playerSeq := 1, roomSeq := 1, itemSeq := 1 }

/-- Looks up a player object by id. -/
def playerOf (s : ServerState) (pid : Nat) : Option SPlayer :=
  s.players.find? (fun p => p.pid == pid)

/-- Channel liveness of a player id (a missing player has no open channel). -/
def isOpenS (s : ServerState) (pid : Nat) : Bool :=
  ((playerOf s pid).map (fun p => p.wsOpen)).getD false

/-- `rooms.get(rid)`. -/
def roomOf (s : ServerState) (rid : Nat) : Option Room :=
  s.rooms.find? (fun r => r.rid == rid)

/-- `getRoomByPlayer(player)`. -/
def getRoomByPlayer (s : ServerState) (pid : Nat) : Option Room :=
  match playerOf s pid with
  | none => none
  | some p =>
      match p.roomId with
      | none => none
      | some rid => roomOf s rid

/-- Writes back a mutated room object: replaces the entry with the same
key, as JS in-place mutation of the object held by the `rooms` map. -/
def updateRoom : List Room → Room → List Room
  | [], _ => []
  | x :: xs, r => if x.rid = r.rid then r :: xs else x :: updateRoom xs r

/-- Mutates `player.roomId` in the registry. -/
def setRoomId (s : ServerState) (pid : Nat) (v : Option Nat) : ServerState :=
  { s with players := s.players.map (fun p => if p.pid == pid then { p with roomId := v } else p) }

/-- Marks a player's channel as no longer open. -/
def setClosed (s : ServerState) (pid : Nat) : ServerState :=
  { s with players := s.players.map (fun p => if p.pid == pid then { p with wsOpen := false } else p) }

/-- Appends delivered messages to the trace. -/
def emit (s : ServerState) (ms : List (Nat × Msg)) : ServerState :=
  { s with outbox := s.outbox ++ ms }

/-- `closeRoom(room, reason)`: cancel the deadline timer, delete the
room from the registry, and when the reason is `opponent_left` notify
every player still on the room's list. -/
def closeRoomS (s : ServerState) (room : Room) (notify : Bool) : ServerState :=
  let s1 := { s with
    timers := s.timers.erase room.rid
    rooms := s.rooms.filter (fun x => !(x.rid == room.rid)) }
  if notify then emit s1 (broadcastTo (isOpenS s1) room.players Msg.opponent_left)
  else s1

/-- The shared departure logic of the `close` handler and
`handleRematch`: drop the player from `room.players`, clear
`player.roomId`, then close the room silently when it emptied and with
`opponent_left` otherwise. -/
def leaveRoom (s : ServerState) (pid : Nat) : ServerState :=
  match getRoomByPlayer s pid with
  | none => s
  | some room =>
      let room1 := { room with players := room.players.filter (fun q => !(q == pid)) }
      let s1 := { s with rooms := updateRoom s.rooms room1 }
      let s2 := setRoomId s1 pid none
      if room1.players.isEmpty then closeRoomS s2 room1 false
      else closeRoomS s2 room1 true

/-- `beginMatch(p1, p2)`: create the room, point both players at it,
register it and its deadline timer, and send each player on the room's
list its `match_start`. -/
def beginMatch (s : ServerState) (p1 p2 : Nat) (now : Nat) : ServerState :=
  let rid := s.roomSeq
  let scores := objSet (objSet [] p1 0) p2 0
  let states := objSet (objSet ([] : List (Nat × PState)) p1 initPState) p2 initPState
  let room : Room :=
    { rid := rid, players := [p1, p2], scores := scores, states := states
      endAt := now + MATCH_DURATION_MS }
  let s1 := setRoomId (setRoomId s p1 (some rid)) p2 (some rid)
  let s2 := { s1 with
    rooms := s1.rooms ++ [room]
    roomSeq := s1.roomSeq + 1
    timers := rid :: s1.timers }
  emit s2 (room.players.flatMap (fun p =>
    sendTo (isOpenS s2) p (Msg.match_start rid p scores room.endAt)))

/-- `pairOrWait(player)`: an empty slot, or a slot whose occupant's
channel is no longer open, is (re)taken by the new player, who gets a
`waiting` notification; otherwise the occupant is popped and a match
begins. -/
def pairOrWait (s : ServerState) (pid : Nat) (now : Nat) : ServerState :=
  let takeSlot :=
    emit { s with waiting := some pid } (sendTo (isOpenS s) pid Msg.waiting)
  match s.waiting with
  | none => takeSlot
  | some w => if isOpenS s w then beginMatch { s with waiting := none } w pid now else takeSlot

/-- The events the server reacts to.  Each message event carries the
`Date.now()` values the handler reads; `chanDie` is the transport
losing the connection (readyState leaves OPEN) before the `close`
callback has run, `closeEvt` is the `close` callback itself. -/
inductive Ev where
  | connect (now : Nat)
  | found (pid : Nat) (now : Nat)
  | stage (pid : Nat) (stageNo : Option ℚ)
  | useItem (pid : Nat) (itemId : Nat) (now : Nat)
  | rematch (pid : Nat) (now : Nat)
  | closeEvt (pid : Nat)
  | chanDie (pid : Nat)
  | timerFire (rid : Nat)
deriving DecidableEq

/-- One server step.  `o` is the random item-type stream. -/
def step (o : Nat → ItemType) (s : ServerState) (e : Ev) : ServerState :=
  match e with
  | Ev.connect now =>
      let pid := s.playerSeq
      let s1 := { s with
        players := s.players ++ [{ pid := pid, wsOpen := true, roomId := none }]
        playerSeq := s.playerSeq + 1 }
      pairOrWait s1 pid now
  | Ev.found pid now =>
      match getRoomByPlayer s pid with
      | none => s
      | some room =>
          let r := handleFound (isOpenS s) room pid now
          emit { s with rooms := updateRoom s.rooms r.1 } r.2
  | Ev.stage pid stageNo =>
      match getRoomByPlayer s pid with
      | none => s
      | some room =>
          let r := handleStageReached (isOpenS s) o s.itemSeq room pid stageNo
          emit { s with rooms := updateRoom s.rooms r.1, itemSeq := r.2.1 } r.2.2
  | Ev.useItem pid itemId now =>
      match getRoomByPlayer s pid with
      | none => s
      | some room =>
          let r := handleUseItem (isOpenS s) room pid itemId now
          emit { s with rooms := updateRoom s.rooms r.1 } r.2
  | Ev.rematch pid now =>
      match playerOf s pid with
      | none => s
      | some _ => pairOrWait (leaveRoom s pid) pid now
  | Ev.closeEvt pid =>
      let s1 := setClosed s pid
      let s2 := { s1 with
        waiting := match s1.waiting with
          | some w => if w == pid then none else some w
          | none => none }
      leaveRoom s2 pid
  | Ev.chanDie pid => setClosed s pid
  | Ev.timerFire rid =>
      if s.timers.contains rid then
        let s1 := { s with timers := s.timers.erase rid }
        match roomOf s1 rid with
        | none => s1
        | some room =>
            emit s1 (broadcastTo (isOpenS s1) room.players
              (Msg.match_end room.scores room.endAt))
      else s

/-- Folds a list of events over the machine. -/
def applyEvents (o : Nat → ItemType) (s : ServerState) (evs : List Ev) : ServerState :=
  evs.foldl (step o) s

/-! ### Helper lemmas -/

theorem grantLoopF_stage (o : Nat → ItemType) :
    ∀ (fuel seq : Nat) (st : PState),
      (grantLoopF o fuel seq st).1.stageReached = st.stageReached := by
  intro fuel
  induction fuel with
  | zero => intro seq st; rfl
  | succ k ih =>
      intro seq st
      rw [grantLoopF]
      by_cases h : st.stageReached ≥ st.nextGrantStage
      · simp only [if_pos h]
        by_cases h2 : st.inventory.length < INVENTORY_MAX
        · simp only [if_pos h2]
          exact ih _ _
        · simp only [if_neg h2]
          exact ih _ _
      · simp only [if_neg h]

theorem grantLoop_stage (o : Nat → ItemType) (seq : Nat) (st : PState) :
    (grantLoop o seq st).1.stageReached = st.stageReached :=
  grantLoopF_stage o _ seq st

theorem grantLoopF_next_ge (o : Nat → ItemType) :
    ∀ (fuel seq : Nat) (st : PState),
      st.nextGrantStage ≤ (grantLoopF o fuel seq st).1.nextGrantStage := by
  intro fuel
  induction fuel with
  | zero => intro seq st; exact le_refl _
  | succ k ih =>
      intro seq st
      rw [grantLoopF]
      by_cases h : st.stageReached ≥ st.nextGrantStage
      · simp only [if_pos h]
        by_cases h2 : st.inventory.length < INVENTORY_MAX
        · simp only [if_pos h2]
          refine le_trans ?_ (ih _ _)
          show st.nextGrantStage ≤ st.nextGrantStage + ITEM_STAGE_INTERVAL
          simp [ITEM_STAGE_INTERVAL]
        · simp only [if_neg h2]
          refine le_trans ?_ (ih _ _)
          show st.nextGrantStage ≤ st.nextGrantStage + ITEM_STAGE_INTERVAL
          simp [ITEM_STAGE_INTERVAL]
      · simp only [if_neg h]
        exact le_refl _

theorem grantLoop_next_ge (o : Nat → ItemType) (seq : Nat) (st : PState) :
    st.nextGrantStage ≤ (grantLoop o seq st).1.nextGrantStage :=
  grantLoopF_next_ge o _ seq st

theorem objGet_objSet_self {α : Type} (l : List (Nat × α)) (k : Nat) (v : α) :
    objGet (objSet l k v) k = some v := by
  induction l with
  | nil => simp [objGet, objSet]
  | cons e t ih =>
      by_cases h : e.1 = k
      · simp [objGet, objSet, h]
      · simpa [objGet, objSet, h] using ih

theorem objGet_objSet_ne {α : Type} (l : List (Nat × α)) (k k2 : Nat) (v : α)
    (h : k2 ≠ k) : objGet (objSet l k v) k2 = objGet l k2 := by
  induction l with
  | nil => simp [objGet, objSet, Ne.symm h]
  | cons e t ih =>
      by_cases he : e.1 = k
      · simp [objGet, objSet, he, Ne.symm h]
      · by_cases he2 : e.1 = k2
        · simp [objGet, objSet, he, he2, h]
        · simpa [objGet, objSet, he, he2] using ih

theorem grantLoopF_eq_grantLoop (o : Nat → ItemType) (fuel seq : Nat) (st : PState)
    (h : (st.stageReached + ITEM_STAGE_INTERVAL - st.nextGrantStage).toNat ≤ 5 * fuel) :
    grantLoopF o fuel seq st = grantLoop o seq st := by
  unfold grantLoop
  exact grantLoopF_stable o fuel _ seq st h (by simp only [ITEM_STAGE_INTERVAL]; omega)

theorem grantLoop_stop (o : Nat → ItemType) (seq : Nat) (st : PState)
    (h : ¬ st.stageReached ≥ st.nextGrantStage) : grantLoop o seq st = (st, seq, 0) := by
  unfold grantLoop
  cases hf : (st.stageReached + ITEM_STAGE_INTERVAL - st.nextGrantStage).toNat with
  | zero => rfl
  | succ k =>
      rw [grantLoopF]
      simp [h]

theorem grantLoop_grant (o : Nat → ItemType) (seq : Nat) (st : PState)
    (h : st.stageReached ≥ st.nextGrantStage) (h2 : st.inventory.length < INVENTORY_MAX) :
    grantLoop o seq st =
      (let r := grantLoop o (seq + 1)
        { st with
          inventory := st.inventory ++ [{ id := seq, type := o seq }]
          nextGrantStage := st.nextGrantStage + ITEM_STAGE_INTERVAL }
       (r.1, r.2.1, r.2.2 + 1)) := by
  obtain ⟨k, hk⟩ : ∃ k, (st.stageReached + ITEM_STAGE_INTERVAL - st.nextGrantStage).toNat
      = k + 1 := by
    refine ⟨(st.stageReached + ITEM_STAGE_INTERVAL - st.nextGrantStage).toNat - 1, ?_⟩
    simp only [ITEM_STAGE_INTERVAL]
    omega
  show grantLoopF o (st.stageReached + ITEM_STAGE_INTERVAL - st.nextGrantStage).toNat seq st = _
  rw [hk, grantLoopF]
  simp only [if_pos h, if_pos h2]
  rw [grantLoopF_eq_grantLoop o k (seq + 1)
    { st with
      inventory := st.inventory ++ [{ id := seq, type := o seq }]
      nextGrantStage := st.nextGrantStage + ITEM_STAGE_INTERVAL }
    (by simp only [ITEM_STAGE_INTERVAL] at hk ⊢; omega)]

theorem grantLoop_full (o : Nat → ItemType) (seq : Nat) (st : PState)
    (h : st.stageReached ≥ st.nextGrantStage) (h2 : ¬ st.inventory.length < INVENTORY_MAX) :
    grantLoop o seq st =
      grantLoop o seq { st with nextGrantStage := st.nextGrantStage + ITEM_STAGE_INTERVAL } := by
  obtain ⟨k, hk⟩ : ∃ k, (st.stageReached + ITEM_STAGE_INTERVAL - st.nextGrantStage).toNat
      = k + 1 := by
    refine ⟨(st.stageReached + ITEM_STAGE_INTERVAL - st.nextGrantStage).toNat - 1, ?_⟩
    simp only [ITEM_STAGE_INTERVAL]
    omega
  show grantLoopF o (st.stageReached + ITEM_STAGE_INTERVAL - st.nextGrantStage).toNat seq st = _
  rw [hk, grantLoopF]
  simp only [if_pos h, if_neg h2]
  rw [grantLoopF_eq_grantLoop o k seq
    { st with nextGrantStage := st.nextGrantStage + ITEM_STAGE_INTERVAL }
    (by simp only [ITEM_STAGE_INTERVAL] at hk ⊢; omega)]

theorem roomFind_rid {l : List Room} {rid : Nat} {room : Room}
    (h : l.find? (fun r => r.rid == rid) = some room) : room.rid = rid := by
  have := List.find?_some h
  simpa using this

theorem updateRoom_found_self {l : List Room} {rid : Nat} {room : Room}
    (h : l.find? (fun r => r.rid == rid) = some room) : updateRoom l room = l := by
  induction l with
  | nil => simp [List.find?] at h
  | cons x t ih =>
      by_cases hx : x.rid = rid
      · have hxb : (x.rid == rid) = true := by simpa using hx
        rw [List.find?, hxb] at h
        have hx2 : room = x := by
          have : some x = some room := h
          exact (Option.some.inj this).symm
        subst hx2
        simp [updateRoom]
      · have hxb : (x.rid == rid) = false := by simpa using hx
        rw [List.find?, hxb] at h
        have h2 : t.find? (fun r => r.rid == rid) = some room := h
        have hrid := roomFind_rid h2
        simp only [updateRoom, if_neg (fun hh : x.rid = room.rid => hx (hh.trans hrid))]
        rw [ih h2]

theorem updateRoom_find {l : List Room} {rid : Nat} {room room2 : Room}
    (h : l.find? (fun r => r.rid == rid) = some room) (h2 : room2.rid = rid) :
    (updateRoom l room2).find? (fun r => r.rid == rid) = some room2 := by
  induction l with
  | nil => simp [List.find?] at h
  | cons x t ih =>
      by_cases hx : x.rid = rid
      · have hrb : (room2.rid == rid) = true := by simpa using h2
        simp only [updateRoom, if_pos (hx.trans h2.symm)]
        rw [List.find?, hrb]
      · have hxb : (x.rid == rid) = false := by simpa using hx
        rw [List.find?, hxb] at h
        have hrec : t.find? (fun r => r.rid == rid) = some room := h
        simp only [updateRoom, if_neg (fun hh : x.rid = room2.rid => hx (hh.trans h2))]
        rw [List.find?, hxb]
        exact ih hrec

theorem getRoomByPlayer_roomOf {s : ServerState} {pid : Nat} {room : Room}
    (h : getRoomByPlayer s pid = some room) : roomOf s room.rid = some room := by
  unfold getRoomByPlayer at h
  cases hp : playerOf s pid with
  | none => simp only [hp] at h; exact absurd h (by simp)
  | some p =>
      simp only [hp] at h
      cases hr : p.roomId with
      | none => simp only [hr] at h; exact absurd h (by simp)
      | some rid =>
          simp only [hr] at h
          have := roomFind_rid h
          unfold roomOf
          rw [this]
          exact h

theorem handleUseItem_gate_noop (isOpen : Nat → Bool) (room : Room)
    (pid itemId : Nat) (now : Nat) (me : PState)
    (hst : objGet room.states pid = some me)
    (hg : me.lastItemUsedStage = me.stageReached) :
    handleUseItem isOpen room pid itemId now = (room, []) := by
  unfold handleUseItem
  rw [hst]
  split
  · rfl
  · split
    · rfl
    · simp [hg]

theorem handleUseItem_success_state (isOpen : Nat → Bool) (room : Room)
    (pid itemId : Nat) (now : Nat) (me : PState) (item : Item)
    (hst : objGet room.states pid = some me)
    (h1 : ¬ now ≥ room.endAt) (h2 : ¬ room.endAt - now < 3000)
    (h3 : ¬ now - me.lastItemUsedAt < ITEM_COOLDOWN_MS)
    (h4 : ¬ me.lastItemUsedStage = me.stageReached)
    (h5 : me.inventory.find? (fun x => x.id == itemId) = some item) :
    ∃ me1, objGet (handleUseItem isOpen room pid itemId now).1.states pid = some me1 ∧
      me1.lastItemUsedStage = me.stageReached ∧ me1.stageReached = me.stageReached := by
  unfold handleUseItem
  simp only [hst, if_neg h1, if_neg h2, if_neg h3, if_neg h4, h5]
  split
  · exact ⟨_, objGet_objSet_self _ _ _, rfl, rfl⟩
  · split
    · exact ⟨_, objGet_objSet_self _ _ _, rfl, rfl⟩
    · rename_i target hfind
      split
      · rename_i ts hts
        split
        · have hne : target ≠ pid := by simpa using List.find?_some hfind
          exact ⟨_, (objGet_objSet_ne _ _ _ _ (fun hh => hne hh.symm)).trans
            (objGet_objSet_self _ _ _), rfl, rfl⟩
        · exact ⟨_, objGet_objSet_self _ _ _, rfl, rfl⟩
      · exact ⟨_, objGet_objSet_self _ _ _, rfl, rfl⟩
  · exact ⟨_, objGet_objSet_self _ _ _, rfl, rfl⟩

theorem emit_nil (s : ServerState) : emit s [] = s := by
  simp [emit]

theorem isOpenS_players_congr {s s2 : ServerState} (q : Nat)
    (h : s.players = s2.players) : isOpenS s q = isOpenS s2 q := by
  unfold isOpenS playerOf
  rw [h]

theorem closeRoomS_players (s : ServerState) (room : Room) (b : Bool) :
    (closeRoomS s room b).players = s.players := by
  unfold closeRoomS emit
  split <;> rfl

theorem closeRoomS_waiting (s : ServerState) (room : Room) (b : Bool) :
    (closeRoomS s room b).waiting = s.waiting := by
  unfold closeRoomS emit
  split <;> rfl

theorem setRoomId_players_open (l : List SPlayer) (p : Nat) (v : Option Nat) (q : Nat) :
    ((l.map (fun x => if x.pid == p then { x with roomId := v } else x)).find?
        (fun x => x.pid == q)).map (fun x => x.wsOpen) =
      (l.find? (fun x => x.pid == q)).map (fun x => x.wsOpen) := by
  induction l with
  | nil => rfl
  | cons x t ih =>
      cases hp : x.pid == p <;> cases hq : x.pid == q <;>
        first
        | simpa [List.find?, hp, hq, -List.find?_map] using ih
        | simp [List.find?, hp, hq, -List.find?_map]

theorem isOpenS_setRoomId (s : ServerState) (p : Nat) (v : Option Nat) (q : Nat) :
    isOpenS (setRoomId s p v) q = isOpenS s q := by
  unfold isOpenS playerOf setRoomId
  rw [setRoomId_players_open]

theorem setClosed_players_open_ne (l : List SPlayer) (p q : Nat) (h : q ≠ p) :
    ((l.map (fun x => if x.pid == p then { x with wsOpen := false } else x)).find?
        (fun x => x.pid == q)).map (fun x => x.wsOpen) =
      (l.find? (fun x => x.pid == q)).map (fun x => x.wsOpen) := by
  induction l with
  | nil => rfl
  | cons x t ih =>
      cases hp : x.pid == p <;> cases hq : x.pid == q <;>
        first
        | exact absurd ((eq_of_beq hq).symm.trans (eq_of_beq hp)) h
        | simpa [List.find?, hp, hq, -List.find?_map] using ih
        | simp [List.find?, hp, hq, -List.find?_map]

theorem isOpenS_setClosed_ne (s : ServerState) (p q : Nat) (h : q ≠ p) :
    isOpenS (setClosed s p) q = isOpenS s q := by
  unfold isOpenS playerOf setClosed
  simp only [setClosed_players_open_ne s.players p q h]

theorem leaveRoom_waiting (s : ServerState) (pid : Nat) :
    (leaveRoom s pid).waiting = s.waiting := by
  unfold leaveRoom
  cases getRoomByPlayer s pid with
  | none => rfl
  | some room =>
      simp only
      split <;> rw [closeRoomS_waiting] <;> rfl

theorem leaveRoom_isOpen (s : ServerState) (pid q : Nat) :
    isOpenS (leaveRoom s pid) q = isOpenS s q := by
  unfold leaveRoom
  cases getRoomByPlayer s pid with
  | none => rfl
  | some room =>
      simp only
      split <;>
      · rw [isOpenS_players_congr q (closeRoomS_players _ _ _)]
        exact isOpenS_setRoomId _ _ _ _

theorem find?_append_some {α : Type} {l1 l2 : List α} {p : α → Bool} {x : α}
    (h : l1.find? p = some x) : (l1 ++ l2).find? p = some x := by
  induction l1 with
  | nil => simp [List.find?] at h
  | cons a t ih =>
      cases ha : p a with
      | true =>
          rw [List.find?, ha] at h
          rw [List.cons_append, List.find?, ha]
          exact h
      | false =>
          rw [List.find?, ha] at h
          rw [List.cons_append, List.find?, ha]
          exact ih h

theorem find?_append_none {α : Type} {l1 l2 : List α} {p : α → Bool}
    (h : l1.find? p = none) : (l1 ++ l2).find? p = l2.find? p := by
  induction l1 with
  | nil => rfl
  | cons a t ih =>
      cases ha : p a with
      | true => rw [List.find?, ha] at h; exact absurd h (by simp)
      | false =>
          rw [List.find?, ha] at h
          rw [List.cons_append, List.find?, ha]
          exact ih h

/-! ### C10: closing a non-occupant's channel leaves the waiting slot alone -/

/-- C10.  `detachFromWaiting` compares channel identity: the close
event of a player who is not the current waiting-slot occupant leaves
the slot pointing at the same occupant, and leaves that occupant's
channel liveness (their chance to be paired at the next `pairOrWait`)
untouched. -/
theorem close_other_preserves_waiting (o : Nat → ItemType) (s : ServerState)
    (pid w : Nat) (hw : s.waiting = some w) (hne : w ≠ pid) :
    (step o s (Ev.closeEvt pid)).waiting = some w ∧
    isOpenS (step o s (Ev.closeEvt pid)) w = isOpenS s w := by
  constructor
  · show (leaveRoom _ pid).waiting = some w
    rw [leaveRoom_waiting]
    show (match (setClosed s pid).waiting with
      | some w => if w == pid then none else some w
      | none => none) = some w
    have : (setClosed s pid).waiting = some w := hw
    rw [this]
    simp [hne]
  · show isOpenS (leaveRoom _ pid) w = isOpenS s w
    rw [leaveRoom_isOpen]
    exact isOpenS_setClosed_ne s pid w hne

/-- C10 witness: with players 1 (waiting) and a room-bound pair absent,
player 2 connects and pairs; here instead we use a three-player run:
player 3 waits while players 1 and 2 are in a room; player 1's close
leaves player 3 waiting and open. -/
theorem close_other_preserves_waiting_witness :
    let o0 : Nat → ItemType := fun _ => ItemType.orb
    let s0 := applyEvents o0 initState [Ev.connect 0, Ev.connect 0, Ev.connect 0]
    (step o0 s0 (Ev.closeEvt 1)).waiting = some 3 ∧
    isOpenS (step o0 s0 (Ev.closeEvt 1)) 3 = isOpenS s0 3 := by
  intro o0 s0
  exact close_other_preserves_waiting o0 s0 1 3 (by decide) (by decide)

theorem setClosed_players_roomId (l : List SPlayer) (p q : Nat) :
    ((l.map (fun x => if x.pid == p then { x with wsOpen := false } else x)).find?
        (fun x => x.pid == q)).map (fun x => x.roomId) =
      (l.find? (fun x => x.pid == q)).map (fun x => x.roomId) := by
  induction l with
  | nil => rfl
  | cons x t ih =>
      cases hp : x.pid == p <;> cases hq : x.pid == q <;>
        first
        | simpa [List.find?, hp, hq, -List.find?_map] using ih
        | simp [List.find?, hp, hq, -List.find?_map]

theorem playerOf_setClosed_roomId (s : ServerState) (p q : Nat) :
    (playerOf (setClosed s p) q).map (fun x => x.roomId) =
      (playerOf s q).map (fun x => x.roomId) := by
  unfold playerOf setClosed
  exact setClosed_players_roomId s.players p q

theorem getRoomByPlayer_eq_of (s2 s : ServerState) (q : Nat)
    (h1 : (playerOf s2 q).map (fun x => x.roomId) =
      (playerOf s q).map (fun x => x.roomId))
    (h2 : s2.rooms = s.rooms) : getRoomByPlayer s2 q = getRoomByPlayer s q := by
  unfold getRoomByPlayer
  cases hp2 : playerOf s2 q with
  | none =>
      cases hp : playerOf s q with
      | none => rfl
      | some p => rw [hp2, hp] at h1; exact absurd h1 (by simp)
  | some p2 =>
      cases hp : playerOf s q with
      | none => rw [hp2, hp] at h1; exact absurd h1 (by simp)
      | some p =>
          rw [hp2, hp] at h1
          have h1' : p2.roomId = p.roomId := by simpa using h1
          show (match p2.roomId with
            | none => none
            | some rid => roomOf s2 rid) =
            (match p.roomId with
            | none => none
            | some rid => roomOf s rid)
          rw [h1']
          cases p.roomId with
          | none => rfl
          | some rid =>
              unfold roomOf
              rw [h2]

theorem roomOf_filter_self {l : List Room} {rid : Nat} :
    (l.filter (fun x => !(x.rid == rid))).find? (fun r => r.rid == rid) = none := by
  rw [List.find?_eq_none]
  intro x hx
  have := (List.mem_filter.mp hx).2
  simpa using this

theorem not_mem_erase_of_count_le_one {l : List Nat} {a : Nat}
    (h : l.count a ≤ 1) : a ∉ l.erase a := by
  have hc := List.count_erase_self a l
  have : (l.erase a).count a = 0 := by omega
  exact List.count_eq_zero.mp this

theorem pairOrWait_none (s : ServerState) (pid now : Nat) (hw : s.waiting = none) :
    pairOrWait s pid now =
      emit { s with waiting := some pid } (sendTo (isOpenS s) pid Msg.waiting) := by
  unfold pairOrWait
  rw [hw]

theorem pairOrWait_dead_slot (s : ServerState) (pid now w : Nat)
    (hw : s.waiting = some w) (hdead : isOpenS s w = false) :
    pairOrWait s pid now =
      emit { s with waiting := some pid } (sendTo (isOpenS s) pid Msg.waiting) := by
  unfold pairOrWait
  rw [hw]
  simp [hdead]

theorem pairOrWait_open_slot (s : ServerState) (pid now w : Nat)
    (hw : s.waiting = some w) (hopen : isOpenS s w = true) :
    pairOrWait s pid now = beginMatch { s with waiting := none } w pid now := by
  unfold pairOrWait
  rw [hw]
  simp [hopen]

/-! ### Registry invariants and per-step room origin -/

/-- States only grow: every per-player entry of `r1` persists into
`r2` with `stageReached` and `nextGrantStage` not decreased. -/
def StateMono (r1 r2 : Room) : Prop :=
  ∀ pid st1, objGet r1.states pid = some st1 →
    ∃ st2, objGet r2.states pid = some st2 ∧
      st1.stageReached ≤ st2.stageReached ∧ st1.nextGrantStage ≤ st2.nextGrantStage

theorem StateMono.rfl (r : Room) : StateMono r r :=
  fun _ st1 h => ⟨st1, h, le_refl _, le_refl _⟩

/-- Registry well-formedness maintained by the server: every room id
is below the id counter, and ids are unique. -/
def RegInv (s : ServerState) : Prop :=
  (∀ r ∈ s.rooms, r.rid < s.roomSeq) ∧ (s.rooms.map Room.rid).Nodup

theorem objGet_objSet_inv {α : Type} {l : List (Nat × α)} {k q : Nat} {v w : α}
    (h : objGet (objSet l k v) q = some w) :
    (q = k ∧ w = v) ∨ (q ≠ k ∧ objGet l q = some w) := by
  by_cases hq : q = k
  · subst hq
    rw [objGet_objSet_self] at h
    exact Or.inl ⟨rfl, (Option.some.inj h).symm⟩
  · rw [objGet_objSet_ne _ _ _ _ hq] at h
    exact Or.inr ⟨hq, h⟩

theorem updateRoom_mem {l : List Room} {r r2 : Room}
    (h : r2 ∈ updateRoom l r) : r2 ∈ l ∨ r2 = r := by
  induction l with
  | nil => simp [updateRoom] at h
  | cons x t ih =>
      unfold updateRoom at h
      split at h
      · rcases List.mem_cons.mp h with h | h
        · exact Or.inr h
        · exact Or.inl (List.mem_cons_of_mem _ h)
      · rcases List.mem_cons.mp h with h | h
        · exact Or.inl (h ▸ List.mem_cons_self _ _)
        · rcases ih h with h | h
          · exact Or.inl (List.mem_cons_of_mem _ h)
          · exact Or.inr h

theorem updateRoom_map_rid (l : List Room) (r : Room) :
    (updateRoom l r).map Room.rid = l.map Room.rid := by
  induction l with
  | nil => rfl
  | cons x t ih =>
      unfold updateRoom
      split
      · rename_i hx
        simp [List.map_cons, hx]
      · simp [List.map_cons, ih]

theorem find?_rid_of_mem_nodup {l : List Room} (hnd : (l.map Room.rid).Nodup)
    {r : Room} (hm : r ∈ l) : l.find? (fun x => x.rid == r.rid) = some r := by
  induction l with
  | nil => simp at hm
  | cons x t ih =>
      rcases List.mem_cons.mp hm with h | h
      · subst h
        simp [List.find?]
      · have hx : x.rid ≠ r.rid := by
          intro hh
          have : r.rid ∈ t.map Room.rid := List.mem_map_of_mem Room.rid h
          rw [← hh] at this
          exact (List.nodup_cons.mp hnd).1 this
        have hxb : (x.rid == r.rid) = false := by simpa using hx
        rw [List.find?, hxb]
        exact ih (List.nodup_cons.mp hnd).2 h

theorem roomOf_mem {s : ServerState} {rid : Nat} {r : Room}
    (h : roomOf s rid = some r) : r ∈ s.rooms :=
  List.mem_of_find?_eq_some h

/-- Fresh rooms created by `beginMatch` carry only initial states. -/
theorem objGet_fresh_init {p1 p2 pid : Nat} {st : PState}
    (h : objGet (objSet (objSet [] p1 initPState) p2 initPState) pid = some st) :
    st = initPState := by
  rcases objGet_objSet_inv h with ⟨_, h2⟩ | ⟨_, h2⟩
  · exact h2
  · rcases objGet_objSet_inv h2 with ⟨_, h3⟩ | ⟨_, h3⟩
    · exact h3
    · simp [objGet, List.find?] at h3

theorem handleFound_fields (io : Nat → Bool) (room : Room) (pid now : Nat) :
    (handleFound io room pid now).1.rid = room.rid ∧
    (handleFound io room pid now).1.players = room.players ∧
    (handleFound io room pid now).1.states = room.states := by
  unfold handleFound
  split <;> exact ⟨rfl, rfl, rfl⟩

theorem handleStageReached_fields (io : Nat → Bool) (o : Nat → ItemType)
    (seq : Nat) (room : Room) (pid : Nat) (q : Option ℚ) :
    (handleStageReached io o seq room pid q).1.rid = room.rid ∧
    (handleStageReached io o seq room pid q).1.players = room.players ∧
    StateMono room (handleStageReached io o seq room pid q).1 := by
  cases hst : objGet room.states pid with
  | none =>
      simp only [handleStageReached, hst]
      exact ⟨trivial, trivial, StateMono.rfl room⟩
  | some st =>
      cases q with
      | none =>
          simp only [handleStageReached, hst]
          exact ⟨trivial, trivial, StateMono.rfl room⟩
      | some qq =>
          simp only [handleStageReached, hst, maybeGrantItems, setState]
          rw [objGet_objSet_self]
          refine ⟨rfl, rfl, ?_⟩
          intro pid2 st1 h
          by_cases hq2 : pid2 = pid
          · subst hq2
            rw [hst] at h
            have hst1 : st1 = st := (Option.some.inj h).symm
            subst hst1
            refine ⟨_, objGet_objSet_self _ _ _, ?_, ?_⟩
            · rw [grantLoop_stage]
              exact le_max_left _ _
            · exact grantLoop_next_ge o seq _
          · refine ⟨st1, ?_, le_refl _, le_refl _⟩
            rw [objGet_objSet_ne _ _ _ _ hq2, objGet_objSet_ne _ _ _ _ hq2]
            exact h

theorem handleUseItem_fields (io : Nat → Bool) (room : Room)
    (pid itemId now : Nat) :
    (handleUseItem io room pid itemId now).1.rid = room.rid ∧
    (handleUseItem io room pid itemId now).1.players = room.players ∧
    StateMono room (handleUseItem io room pid itemId now).1 := by
  unfold handleUseItem
  split
  · exact ⟨rfl, rfl, StateMono.rfl room⟩
  · split
    · exact ⟨rfl, rfl, StateMono.rfl room⟩
    · split
      · exact ⟨rfl, rfl, StateMono.rfl room⟩
      · rename_i me hme
        split
        · exact ⟨rfl, rfl, StateMono.rfl room⟩
        · split
          · exact ⟨rfl, rfl, StateMono.rfl room⟩
          · split
            · exact ⟨rfl, rfl, StateMono.rfl room⟩
            · rename_i item hitem
              split
              · -- orb
                refine ⟨rfl, rfl, ?_⟩
                intro pid2 st1 h
                by_cases hq2 : pid2 = pid
                · subst hq2
                  rw [hme] at h
                  have hst1 : st1 = me := (Option.some.inj h).symm
                  subst hst1
                  exact ⟨_, objGet_objSet_self _ _ _, le_refl _, le_refl _⟩
                · refine ⟨st1, ?_, le_refl _, le_refl _⟩
                  show objGet (objSet room.states pid _) pid2 = some st1
                  rw [objGet_objSet_ne _ _ _ _ hq2]
                  exact h
              · -- smoke
                split
                · -- no opponent
                  refine ⟨rfl, rfl, ?_⟩
                  intro pid2 st1 h
                  by_cases hq2 : pid2 = pid
                  · subst hq2
                    rw [hme] at h
                    have hst1 : st1 = me := (Option.some.inj h).symm
                    subst hst1
                    exact ⟨_, objGet_objSet_self _ _ _, le_refl _, le_refl _⟩
                  · refine ⟨st1, ?_, le_refl _, le_refl _⟩
                    show objGet (objSet room.states pid _) pid2 = some st1
                    rw [objGet_objSet_ne _ _ _ _ hq2]
                    exact h
                · rename_i target htarget
                  split
                  · rename_i ts hts
                    split
                    · -- blocked
                      have htne : target ≠ pid := by
                        simpa using List.find?_some htarget
                      refine ⟨rfl, rfl, ?_⟩
                      intro pid2 st1 h
                      by_cases hq2 : pid2 = target
                      · subst hq2
                        rw [hts] at h
                        have hst1 : st1 = ts := (Option.some.inj h).symm
                        subst hst1
                        exact ⟨_, objGet_objSet_self _ _ _, le_refl _, le_refl _⟩
                      · by_cases hq3 : pid2 = pid
                        · subst hq3
                          rw [hme] at h
                          have hst1 : st1 = me := (Option.some.inj h).symm
                          subst hst1
                          exact ⟨_, (objGet_objSet_ne _ _ _ _
                              (fun hh => htne hh.symm)).trans (objGet_objSet_self _ _ _),
                            le_refl _, le_refl _⟩
                        · exact ⟨st1, (objGet_objSet_ne _ _ _ _ hq2).trans
                            ((objGet_objSet_ne _ _ _ _ hq3).trans h), le_refl _, le_refl _⟩
                    · -- debuff
                      refine ⟨rfl, rfl, ?_⟩
                      intro pid2 st1 h
                      by_cases hq2 : pid2 = pid
                      · subst hq2
                        rw [hme] at h
                        have hst1 : st1 = me := (Option.some.inj h).symm
                        subst hst1
                        exact ⟨_, objGet_objSet_self _ _ _, le_refl _, le_refl _⟩
                      · refine ⟨st1, ?_, le_refl _, le_refl _⟩
                        show objGet (objSet room.states pid _) pid2 = some st1
                        rw [objGet_objSet_ne _ _ _ _ hq2]
                        exact h
                  · -- opponent without state record
                    refine ⟨rfl, rfl, ?_⟩
                    intro pid2 st1 h
                    by_cases hq2 : pid2 = pid
                    · subst hq2
                      rw [hme] at h
                      have hst1 : st1 = me := (Option.some.inj h).symm
                      subst hst1
                      exact ⟨_, objGet_objSet_self _ _ _, le_refl _, le_refl _⟩
                    · refine ⟨st1, ?_, le_refl _, le_refl _⟩
                      show objGet (objSet room.states pid _) pid2 = some st1
                      rw [objGet_objSet_ne _ _ _ _ hq2]
                      exact h
              · -- shield
                refine ⟨rfl, rfl, ?_⟩
                intro pid2 st1 h
                by_cases hq2 : pid2 = pid
                · subst hq2
                  rw [hme] at h
                  have hst1 : st1 = me := (Option.some.inj h).symm
                  subst hst1
                  exact ⟨_, objGet_objSet_self _ _ _, le_refl _, le_refl _⟩
                · refine ⟨st1, ?_, le_refl _, le_refl _⟩
                  show objGet (objSet room.states pid _) pid2 = some st1
                  rw [objGet_objSet_ne _ _ _ _ hq2]
                  exact h

theorem StateMono.of_states_eq {r1 r2 : Room} (h : r2.states = r1.states) :
    StateMono r1 r2 :=
  fun _ st1 hh => ⟨st1, by rw [h]; exact hh, le_refl _, le_refl _⟩

theorem leaveRoom_roomSeq (s : ServerState) (pid : Nat) :
    (leaveRoom s pid).roomSeq = s.roomSeq := by
  unfold leaveRoom
  cases getRoomByPlayer s pid with
  | none => rfl
  | some room =>
      simp only
      split <;> rfl

theorem leaveRoom_rooms_origin (t : ServerState) (pid : Nat) (r2 : Room)
    (h2 : r2 ∈ (leaveRoom t pid).rooms) : r2 ∈ t.rooms := by
  unfold leaveRoom at h2
  cases hr : getRoomByPlayer t pid with
  | none =>
      simp only [hr] at h2
      exact h2
  | some room =>
      simp only [hr] at h2
      have h3 : r2 ∈ (updateRoom t.rooms
          { room with players := room.players.filter (fun q => !(q == pid)) }).filter
          (fun x => !(x.rid == room.rid)) := by
        split at h2 <;> exact h2
      rcases List.mem_filter.mp h3 with ⟨hmem, hpred⟩
      rcases updateRoom_mem hmem with h | h
      · exact h
      · subst h
        simp at hpred

theorem mem_sendTo {f : Nat → Bool} {p : Nat} {m : Msg} {x : Nat × Msg}
    (h : x ∈ sendTo f p m) : x.1 = p := by
  unfold sendTo at h
  split at h
  · simp at h
    rw [h]
  · simp at h

theorem beginMatch_rooms (s : ServerState) (p1 p2 now : Nat) :
    (beginMatch s p1 p2 now).rooms = s.rooms ++
      [{ rid := s.roomSeq, players := [p1, p2]
         scores := objSet (objSet [] p1 0) p2 0
         states := objSet (objSet [] p1 initPState) p2 initPState
         endAt := now + MATCH_DURATION_MS }] := rfl

theorem beginMatch_timers (s : ServerState) (p1 p2 now : Nat) :
    (beginMatch s p1 p2 now).timers = s.roomSeq :: s.timers := rfl

theorem beginMatch_outbox_recipients (s : ServerState) (p1 p2 now : Nat) :
    ∃ ms, (beginMatch s p1 p2 now).outbox = s.outbox ++ ms ∧
      ∀ x ∈ ms, x.1 = p1 ∨ x.1 = p2 := by
  refine ⟨_, rfl, ?_⟩
  intro x hx
  simp only [List.flatMap_cons, List.flatMap_nil, List.append_nil] at hx
  rcases List.mem_append.mp hx with h | h
  · exact Or.inl (mem_sendTo h)
  · exact Or.inr (mem_sendTo h)

theorem sendTo_filter_ne (f : Nat → Bool) (p : Nat) (m : Msg) (b : Nat)
    (h : (p == b) = false) :
    (sendTo f p m).filter (fun x => x.1 == b) = [] := by
  unfold sendTo
  split <;> simp [h]

theorem pairOrWait_rooms_origin (t : ServerState) (pid now : Nat) (r2 : Room)
    (h2 : r2 ∈ (pairOrWait t pid now).rooms) :
    r2 ∈ t.rooms ∨
    (r2.players.length = 2 ∧ r2.rid = t.roomSeq ∧
      ∀ q st, objGet r2.states q = some st → st = initPState) := by
  unfold pairOrWait at h2
  cases htw : t.waiting with
  | none =>
      simp only [htw] at h2
      exact Or.inl h2
  | some w =>
      simp only [htw] at h2
      cases hio : isOpenS t w with
      | false =>
          simp only [hio, Bool.false_eq_true, if_false] at h2
          exact Or.inl h2
      | true =>
          simp only [hio, if_true] at h2
          rw [beginMatch_rooms] at h2
          rcases List.mem_append.mp h2 with h | h
          · exact Or.inl h
          · rcases List.mem_singleton.mp h with rfl
            refine Or.inr ⟨rfl, rfl, ?_⟩
            intro q st hq
            exact objGet_fresh_init hq

theorem step_rooms_origin (o : Nat → ItemType) (s : ServerState) (e : Ev) (r2 : Room)
    (h2 : r2 ∈ (step o s e).rooms) :
    (∃ r1 ∈ s.rooms, r1.rid = r2.rid ∧ r1.players = r2.players ∧ StateMono r1 r2) ∨
    (r2.players.length = 2 ∧ r2.rid = s.roomSeq ∧
      ∀ q st, objGet r2.states q = some st → st = initPState) := by
  cases e with
  | connect now =>
      have h2' : r2 ∈ (pairOrWait { s with
          players := s.players ++ [{ pid := s.playerSeq, wsOpen := true, roomId := none }]
          playerSeq := s.playerSeq + 1 } s.playerSeq now).rooms := h2
      rcases pairOrWait_rooms_origin _ _ _ _ h2' with h | ⟨hl, hrid, hst⟩
      · exact Or.inl ⟨r2, h, rfl, rfl, StateMono.rfl r2⟩
      · exact Or.inr ⟨hl, hrid, hst⟩
  | found pid now =>
      cases hr : getRoomByPlayer s pid with
      | none =>
          simp only [step, hr] at h2
          exact Or.inl ⟨r2, h2, rfl, rfl, StateMono.rfl r2⟩
      | some room =>
          simp only [step, hr] at h2
          have h2' : r2 ∈ updateRoom s.rooms (handleFound (isOpenS s) room pid now).1 := h2
          rcases updateRoom_mem h2' with h | h
          · exact Or.inl ⟨r2, h, rfl, rfl, StateMono.rfl r2⟩
          · obtain ⟨hrid, hpl, hstates⟩ := handleFound_fields (isOpenS s) room pid now
            have hmem : room ∈ s.rooms := roomOf_mem (getRoomByPlayer_roomOf hr)
            refine Or.inl ⟨room, hmem, ?_, ?_, ?_⟩
            · rw [h, hrid]
            · rw [h, hpl]
            · rw [h]
              exact StateMono.of_states_eq hstates
  | stage pid q =>
      cases hr : getRoomByPlayer s pid with
      | none =>
          simp only [step, hr] at h2
          exact Or.inl ⟨r2, h2, rfl, rfl, StateMono.rfl r2⟩
      | some room =>
          simp only [step, hr] at h2
          have h2' : r2 ∈ updateRoom s.rooms
            (handleStageReached (isOpenS s) o s.itemSeq room pid q).1 := h2
          rcases updateRoom_mem h2' with h | h
          · exact Or.inl ⟨r2, h, rfl, rfl, StateMono.rfl r2⟩
          · obtain ⟨hrid, hpl, hmono⟩ :=
              handleStageReached_fields (isOpenS s) o s.itemSeq room pid q
            have hmem : room ∈ s.rooms := roomOf_mem (getRoomByPlayer_roomOf hr)
            refine Or.inl ⟨room, hmem, ?_, ?_, ?_⟩
            · rw [h, hrid]
            · rw [h, hpl]
            · rw [h]
              exact hmono
  | useItem pid itemId now =>
      cases hr : getRoomByPlayer s pid with
      | none =>
          simp only [step, hr] at h2
          exact Or.inl ⟨r2, h2, rfl, rfl, StateMono.rfl r2⟩
      | some room =>
          simp only [step, hr] at h2
          have h2' : r2 ∈ updateRoom s.rooms
            (handleUseItem (isOpenS s) room pid itemId now).1 := h2
          rcases updateRoom_mem h2' with h | h
          · exact Or.inl ⟨r2, h, rfl, rfl, StateMono.rfl r2⟩
          · obtain ⟨hrid, hpl, hmono⟩ :=
              handleUseItem_fields (isOpenS s) room pid itemId now
            have hmem : room ∈ s.rooms := roomOf_mem (getRoomByPlayer_roomOf hr)
            refine Or.inl ⟨room, hmem, ?_, ?_, ?_⟩
            · rw [h, hrid]
            · rw [h, hpl]
            · rw [h]
              exact hmono
  | rematch pid now =>
      cases hp : playerOf s pid with
      | none =>
          simp only [step, hp] at h2
          exact Or.inl ⟨r2, h2, rfl, rfl, StateMono.rfl r2⟩
      | some pa =>
          simp only [step, hp] at h2
          rcases pairOrWait_rooms_origin _ _ _ _ h2 with h | ⟨hl, hrid, hst⟩
          · exact Or.inl ⟨r2, leaveRoom_rooms_origin _ _ _ h, rfl, rfl, StateMono.rfl r2⟩
          · rw [leaveRoom_roomSeq] at hrid
            exact Or.inr ⟨hl, hrid, hst⟩
  | closeEvt pid =>
      have h2' : r2 ∈ (leaveRoom { setClosed s pid with
          waiting := match (setClosed s pid).waiting with
            | some w => if w == pid then none else some w
            | none => none } pid).rooms := h2
      have h3 := leaveRoom_rooms_origin _ _ _ h2'
      have h4 : r2 ∈ s.rooms := h3
      exact Or.inl ⟨r2, h4, rfl, rfl, StateMono.rfl r2⟩
  | chanDie pid =>
      have h2' : r2 ∈ s.rooms := h2
      exact Or.inl ⟨r2, h2', rfl, rfl, StateMono.rfl r2⟩
  | timerFire rid =>
      cases hc : s.timers.contains rid with
      | false =>
          simp only [step, hc, Bool.false_eq_true, if_false] at h2
          exact Or.inl ⟨r2, h2, rfl, rfl, StateMono.rfl r2⟩
      | true =>
          simp only [step, hc, if_true] at h2
          cases hro : roomOf { s with timers := s.timers.erase rid } rid with
          | none =>
              simp only [hro] at h2
              exact Or.inl ⟨r2, h2, rfl, rfl, StateMono.rfl r2⟩
          | some room =>
              simp only [hro] at h2
              exact Or.inl ⟨r2, h2, rfl, rfl, StateMono.rfl r2⟩

theorem pairOrWait_roomSeq_le (t : ServerState) (pid now : Nat) :
    t.roomSeq ≤ (pairOrWait t pid now).roomSeq := by
  unfold pairOrWait
  cases htw : t.waiting with
  | none => exact le_refl _
  | some w =>
      simp only
      cases hio : isOpenS t w with
      | false =>
          simp only [hio, Bool.false_eq_true, if_false]
          exact le_refl _
      | true =>
          simp only [hio, if_true]
          exact Nat.le_succ _

theorem step_roomSeq_le (o : Nat → ItemType) (s : ServerState) (e : Ev) :
    s.roomSeq ≤ (step o s e).roomSeq := by
  cases e with
  | connect now =>
      exact pairOrWait_roomSeq_le { s with
        players := s.players ++ [{ pid := s.playerSeq, wsOpen := true, roomId := none }]
        playerSeq := s.playerSeq + 1 } s.playerSeq now
  | found pid now =>
      cases hr : getRoomByPlayer s pid with
      | none => simp only [step, hr]; exact le_refl _
      | some room => simp only [step, hr]; exact le_refl _
  | stage pid q =>
      cases hr : getRoomByPlayer s pid with
      | none => simp only [step, hr]; exact le_refl _
      | some room => simp only [step, hr]; exact le_refl _
  | useItem pid itemId now =>
      cases hr : getRoomByPlayer s pid with
      | none => simp only [step, hr]; exact le_refl _
      | some room => simp only [step, hr]; exact le_refl _
  | rematch pid now =>
      cases hp : playerOf s pid with
      | none => simp only [step, hp]; exact le_refl _
      | some pa =>
          simp only [step, hp]
          exact le_trans (le_of_eq (leaveRoom_roomSeq s pid).symm)
            (pairOrWait_roomSeq_le _ _ _)
  | closeEvt pid =>
      exact le_of_eq (leaveRoom_roomSeq { setClosed s pid with
        waiting := match (setClosed s pid).waiting with
          | some w => if w == pid then none else some w
          | none => none } pid).symm
  | chanDie pid => exact le_refl _
  | timerFire rid =>
      cases hc : s.timers.contains rid with
      | false => simp only [step, hc, Bool.false_eq_true, if_false]; exact le_refl _
      | true =>
          simp only [step, hc, if_true]
          cases hro : roomOf { s with timers := s.timers.erase rid } rid with
          | none => simp only [hro]; exact le_refl _
          | some room => simp only [hro]; exact le_refl _

theorem RegInv_beginMatch (t : ServerState) (p1 p2 now : Nat) (h : RegInv t) :
    RegInv (beginMatch t p1 p2 now) := by
  obtain ⟨hf, hnd⟩ := h
  constructor
  · intro r hr
    rw [beginMatch_rooms] at hr
    show r.rid < t.roomSeq + 1
    rcases List.mem_append.mp hr with hh | hh
    · exact Nat.lt_succ_of_lt (hf r hh)
    · rcases List.mem_singleton.mp hh with rfl
      exact Nat.lt_succ_self _
  · show ((beginMatch t p1 p2 now).rooms.map Room.rid).Nodup
    rw [beginMatch_rooms, List.map_append, List.nodup_append]
    refine ⟨hnd, List.nodup_singleton _, ?_⟩
    intro a ha hb
    obtain ⟨r, hrm, rfl⟩ := List.mem_map.mp ha
    have h1 : r.rid < t.roomSeq := hf r hrm
    have h2 : r.rid = t.roomSeq := by simpa using hb
    omega

theorem RegInv_pairOrWait (t : ServerState) (pid now : Nat) (h : RegInv t) :
    RegInv (pairOrWait t pid now) := by
  unfold pairOrWait
  cases htw : t.waiting with
  | none => exact h
  | some w =>
      simp only
      cases hio : isOpenS t w with
      | false =>
          simp only [hio, Bool.false_eq_true, if_false]
          exact h
      | true =>
          simp only [hio, if_true]
          exact RegInv_beginMatch _ w pid now h

theorem RegInv_leaveRoom (t : ServerState) (pid : Nat) (h : RegInv t) :
    RegInv (leaveRoom t pid) := by
  unfold leaveRoom
  cases hr : getRoomByPlayer t pid with
  | none => exact h
  | some room =>
      simp only
      have hmem : room ∈ t.rooms := roomOf_mem (getRoomByPlayer_roomOf hr)
      have hsub : (((updateRoom t.rooms
          { room with players := room.players.filter (fun q => !(q == pid)) }).filter
          (fun x => !(x.rid == room.rid))).map Room.rid).Nodup := by
        refine List.Nodup.sublist (List.Sublist.map _ (List.filter_sublist _)) ?_
        rw [updateRoom_map_rid]
        exact h.2
      split <;>
      · refine ⟨?_, hsub⟩
        intro r hrm
        have hrm' : r ∈ (updateRoom t.rooms
            { room with players := room.players.filter (fun q => !(q == pid)) }).filter
            (fun x => !(x.rid == room.rid)) := hrm
        have hrm2 := (List.mem_filter.mp hrm').1
        rcases updateRoom_mem hrm2 with hh | hh
        · exact h.1 r hh
        · subst hh
          exact h.1 room hmem

theorem step_RegInv (o : Nat → ItemType) (s : ServerState) (e : Ev) (h : RegInv s) :
    RegInv (step o s e) := by
  cases e with
  | connect now => exact RegInv_pairOrWait _ _ _ h
  | found pid now =>
      cases hr : getRoomByPlayer s pid with
      | none => simp only [step, hr]; exact h
      | some room =>
          simp only [step, hr]
          have hmem : room ∈ s.rooms := roomOf_mem (getRoomByPlayer_roomOf hr)
          refine ⟨?_, ?_⟩
          · intro r hrm
            have hrm' : r ∈ updateRoom s.rooms (handleFound (isOpenS s) room pid now).1 := hrm
            rcases updateRoom_mem hrm' with hh | hh
            · exact h.1 r hh
            · subst hh
              have := (handleFound_fields (isOpenS s) room pid now).1
              show (handleFound (isOpenS s) room pid now).1.rid < s.roomSeq
              rw [this]
              exact h.1 room hmem
          · have : ((updateRoom s.rooms
                (handleFound (isOpenS s) room pid now).1).map Room.rid).Nodup := by
              rw [updateRoom_map_rid]
              exact h.2
            exact this
  | stage pid q =>
      cases hr : getRoomByPlayer s pid with
      | none => simp only [step, hr]; exact h
      | some room =>
          simp only [step, hr]
          have hmem : room ∈ s.rooms := roomOf_mem (getRoomByPlayer_roomOf hr)
          refine ⟨?_, ?_⟩
          · intro r hrm
            have hrm' : r ∈ updateRoom s.rooms
                (handleStageReached (isOpenS s) o s.itemSeq room pid q).1 := hrm
            rcases updateRoom_mem hrm' with hh | hh
            · exact h.1 r hh
            · subst hh
              have := (handleStageReached_fields (isOpenS s) o s.itemSeq room pid q).1
              show (handleStageReached (isOpenS s) o s.itemSeq room pid q).1.rid < s.roomSeq
              rw [this]
              exact h.1 room hmem
          · have : ((updateRoom s.rooms
                (handleStageReached (isOpenS s) o s.itemSeq room pid q).1).map Room.rid).Nodup := by
              rw [updateRoom_map_rid]
              exact h.2
            exact this
  | useItem pid itemId now =>
      cases hr : getRoomByPlayer s pid with
      | none => simp only [step, hr]; exact h
      | some room =>
          simp only [step, hr]
          have hmem : room ∈ s.rooms := roomOf_mem (getRoomByPlayer_roomOf hr)
          refine ⟨?_, ?_⟩
          · intro r hrm
            have hrm' : r ∈ updateRoom s.rooms
                (handleUseItem (isOpenS s) room pid itemId now).1 := hrm
            rcases updateRoom_mem hrm' with hh | hh
            · exact h.1 r hh
            · subst hh
              have := (handleUseItem_fields (isOpenS s) room pid itemId now).1
              show (handleUseItem (isOpenS s) room pid itemId now).1.rid < s.roomSeq
              rw [this]
              exact h.1 room hmem
          · have : ((updateRoom s.rooms
                (handleUseItem (isOpenS s) room pid itemId now).1).map Room.rid).Nodup := by
              rw [updateRoom_map_rid]
              exact h.2
            exact this
  | rematch pid now =>
      cases hp : playerOf s pid with
      | none => simp only [step, hp]; exact h
      | some pa =>
          simp only [step, hp]
          have h1 : RegInv (leaveRoom s pid) := RegInv_leaveRoom s pid h
          exact RegInv_pairOrWait _ _ _ h1
  | closeEvt pid =>
      exact RegInv_leaveRoom _ _ h
  | chanDie pid => exact h
  | timerFire rid =>
      cases hc : s.timers.contains rid with
      | false => simp only [step, hc, Bool.false_eq_true, if_false]; exact h
      | true =>
          simp only [step, hc, if_true]
          cases hro : roomOf { s with timers := s.timers.erase rid } rid with
          | none => simp only [hro]; exact h
          | some room => simp only [hro]; exact h

theorem step_roomOf_mono (o : Nat → ItemType) (s : ServerState) (e : Ev)
    (hinv : RegInv s) {rid : Nat} {r r2 : Room}
    (hlt : rid < s.roomSeq)
    (h1 : roomOf s rid = some r)
    (h2 : roomOf (step o s e) rid = some r2) :
    StateMono r r2 := by
  have hm2 : r2 ∈ (step o s e).rooms := roomOf_mem h2
  have hrid2 : r2.rid = rid := roomFind_rid h2
  rcases step_rooms_origin o s e r2 hm2 with ⟨r1, hr1m, hr1rid, _, hmono⟩ | ⟨_, hfreshrid, _⟩
  · have hfind : s.rooms.find? (fun x => x.rid == r1.rid) = some r1 :=
      find?_rid_of_mem_nodup hinv.2 hr1m
    rw [hr1rid, hrid2] at hfind
    have h1' : s.rooms.find? (fun x => x.rid == rid) = some r := h1
    rw [h1'] at hfind
    have hr1r : r1 = r := (Option.some.inj hfind).symm
    rw [← hr1r]
    exact hmono
  · rw [hrid2] at hfreshrid
    omega

theorem step_roomOf_none (o : Nat → ItemType) (s : ServerState) (e : Ev)
    (hinv : RegInv s) {rid : Nat}
    (hlt : rid < s.roomSeq) (h1 : roomOf s rid = none) :
    roomOf (step o s e) rid = none := by
  cases h2 : roomOf (step o s e) rid with
  | none => rfl
  | some r2 =>
      have hm2 : r2 ∈ (step o s e).rooms := roomOf_mem h2
      have hrid2 : r2.rid = rid := roomFind_rid h2
      rcases step_rooms_origin o s e r2 hm2 with ⟨r1, hr1m, hr1rid, _, _⟩ | ⟨_, hfreshrid, _⟩
      · have hfind : s.rooms.find? (fun x => x.rid == r1.rid) = some r1 :=
          find?_rid_of_mem_nodup hinv.2 hr1m
        rw [hr1rid, hrid2] at hfind
        have h1' : s.rooms.find? (fun x => x.rid == rid) = none := h1
        rw [h1'] at hfind
        exact absurd hfind (by simp)
      · rw [hrid2] at hfreshrid
        omega

theorem applyEvents_roomOf_none (o : Nat → ItemType) (evs : List Ev) :
    ∀ (s : ServerState) (rid : Nat), RegInv s → rid < s.roomSeq →
      roomOf s rid = none → roomOf (applyEvents o s evs) rid = none := by
  induction evs with
  | nil =>
      intro s rid _ _ h1
      exact h1
  | cons e evs ih =>
      intro s rid hinv hlt h1
      exact ih (step o s e) rid (step_RegInv o s e hinv)
        (lt_of_lt_of_le hlt (step_roomSeq_le o s e))
        (step_roomOf_none o s e hinv hlt h1)

theorem applyEvents_mono (o : Nat → ItemType) (evs : List Ev) :
    ∀ (s : ServerState) (rid pid : Nat) (r r2 : Room) (st st2 : PState),
      RegInv s →
      roomOf s rid = some r → objGet r.states pid = some st →
      roomOf (applyEvents o s evs) rid = some r2 →
      objGet r2.states pid = some st2 →
      st.stageReached ≤ st2.stageReached ∧ st.nextGrantStage ≤ st2.nextGrantStage := by
  induction evs with
  | nil =>
      intro s rid pid r r2 st st2 _ h1 hst h2 hst2
      have h2' : roomOf s rid = some r2 := h2
      rw [h1] at h2'
      have hr : r = r2 := Option.some.inj h2'
      subst hr
      rw [hst] at hst2
      have hs : st = st2 := Option.some.inj hst2
      subst hs
      exact ⟨le_refl _, le_refl _⟩
  | cons e evs ih =>
      intro s rid pid r r2 st st2 hinv h1 hst h2 hst2
      have hridr : r.rid = rid := roomFind_rid h1
      have hlt : rid < s.roomSeq := by
        rw [← hridr]
        exact hinv.1 r (roomOf_mem h1)
      have hinv2 : RegInv (step o s e) := step_RegInv o s e hinv
      have hlt2 : rid < (step o s e).roomSeq := lt_of_lt_of_le hlt (step_roomSeq_le o s e)
      have h2' : roomOf (applyEvents o (step o s e) evs) rid = some r2 := h2
      cases hmid : roomOf (step o s e) rid with
      | none =>
          have := applyEvents_roomOf_none o evs (step o s e) rid hinv2 hlt2 hmid
          rw [h2'] at this
          exact absurd this (by simp)
      | some rmid =>
          obtain ⟨stmid, hstmid, hs1, hn1⟩ :=
            step_roomOf_mono o s e hinv hlt h1 hmid pid st hst
          have hrest := ih (step o s e) rid pid rmid r2 stmid st2 hinv2 hmid hstmid h2' hst2
          exact ⟨le_trans hs1 hrest.1, le_trans hn1 hrest.2⟩

theorem leaveRoom_two (s : ServerState) (a b : Nat) (room : Room)
    (hroom : getRoomByPlayer s a = some room)
    (hplayers : room.players = [a, b] ∨ room.players = [b, a])
    (hab : b ≠ a) :
    leaveRoom s a =
      closeRoomS
        (setRoomId { s with rooms := updateRoom s.rooms { room with players := [b] } } a none)
        { room with players := [b] } true := by
  have hba : (b == a) = false := by simpa using hab
  unfold leaveRoom
  simp only [hroom]
  rcases hplayers with h | h <;>
    simp [h, List.filter, hba, List.isEmpty]

theorem leaveRoom_self (s : ServerState) (a : Nat) (room : Room)
    (hroom : getRoomByPlayer s a = some room)
    (hplayers : room.players = [a, a]) :
    leaveRoom s a =
      closeRoomS
        (setRoomId { s with rooms := updateRoom s.rooms { room with players := [] } } a none)
        { room with players := [] } false := by
  unfold leaveRoom
  simp only [hroom]
  simp [hplayers, List.filter, List.isEmpty]

theorem closeRoomS_outbox (s : ServerState) (room : Room) :
    (closeRoomS s room true).outbox =
      s.outbox ++ broadcastTo (isOpenS s) room.players Msg.opponent_left := by
  have h : isOpenS { s with
      timers := s.timers.erase room.rid
      rooms := s.rooms.filter (fun x => !(x.rid == room.rid)) } = isOpenS s :=
    funext fun q => isOpenS_players_congr q rfl
  show s.outbox ++ broadcastTo (isOpenS { s with
      timers := s.timers.erase room.rid
      rooms := s.rooms.filter (fun x => !(x.rid == room.rid)) }) room.players
      Msg.opponent_left = _
  rw [h]

/-- The conclusions C6 needs about `pairOrWait` applied to the state
left behind by a two-player departure, stated over an abstract
post-departure state `L`. -/
theorem pairOrWait_departure_facts (s L : ServerState) (a b rid now : Nat)
    (hw : L.waiting = s.waiting)
    (hopen : ∀ q, isOpenS L q = isOpenS s q)
    (houtbox : L.outbox = s.outbox ++ [(b, Msg.opponent_left)])
    (hrooms : roomOf L rid = none)
    (htimers : rid ∉ L.timers)
    (hseq : L.roomSeq = s.roomSeq)
    (hab : b ≠ a) (hwb : s.waiting ≠ some b) (hfresh : rid ≠ s.roomSeq) :
    roomOf (pairOrWait L a now) rid = none ∧
    rid ∉ (pairOrWait L a now).timers ∧
    ((pairOrWait L a now).outbox.drop s.outbox.length).filter (fun m => m.1 == b) =
      [(b, Msg.opponent_left)] ∧
    (pairOrWait L a now).waiting ≠ some b := by
  have hab2 : (a == b) = false := by
    simp only [beq_eq_false_iff_ne]
    exact fun hh => hab hh.symm
  have hbb : (b == b) = true := by simp
  rcases hsw : s.waiting with _ | w
  · rw [pairOrWait_none L a now (hw.trans hsw)]
    refine ⟨hrooms, htimers, ?_, ?_⟩
    · show ((L.outbox ++ sendTo (isOpenS L) a Msg.waiting).drop s.outbox.length).filter
        (fun m => m.1 == b) = [(b, Msg.opponent_left)]
      rw [houtbox, List.append_assoc, List.drop_left]
      cases hLa : isOpenS L a <;> simp [sendTo, hLa, hab2, List.filter, hbb]
    · show some a ≠ some b
      simp only [Ne, Option.some.injEq]
      exact fun hh => hab hh.symm
  · have hwbne : w ≠ b := by
      rw [hsw] at hwb
      simpa using hwb
    have hwbne2 : (w == b) = false := by simpa using hwbne
    cases hLw : isOpenS L w with
    | false =>
        rw [pairOrWait_dead_slot L a now w (hw.trans hsw) hLw]
        refine ⟨hrooms, htimers, ?_, ?_⟩
        · show ((L.outbox ++ sendTo (isOpenS L) a Msg.waiting).drop s.outbox.length).filter
            (fun m => m.1 == b) = [(b, Msg.opponent_left)]
          rw [houtbox, List.append_assoc, List.drop_left]
          cases hLa : isOpenS L a <;> simp [sendTo, hLa, hab2, List.filter, hbb]
        · show some a ≠ some b
          simp only [Ne, Option.some.injEq]
          exact fun hh => hab hh.symm
    | true =>
        rw [pairOrWait_open_slot L a now w (hw.trans hsw) hLw]
        obtain ⟨ms, hms, hrec⟩ :=
          beginMatch_outbox_recipients { L with waiting := none } w a now
        have hf : (L.roomSeq == rid) = false := by
          simp only [beq_eq_false_iff_ne]
          rw [hseq]
          exact fun hh => hfresh hh.symm
        refine ⟨?_, ?_, ?_, ?_⟩
        · unfold roomOf
          rw [beginMatch_rooms]
          rw [find?_append_none (hrooms : roomOf L rid = none)]
          simp [List.find?, hf]
        · rw [beginMatch_timers]
          simp only [List.mem_cons]
          rintro (hh | hh)
          · exact hfresh (hh.trans hseq)
          · exact htimers hh
        · have hms2 : (beginMatch { L with waiting := none } w a now).outbox =
            L.outbox ++ ms := hms
          rw [hms2, houtbox, List.append_assoc, List.drop_left, List.filter_append]
          have hnil : ms.filter (fun m => m.1 == b) = [] := by
            rw [List.filter_eq_nil]
            intro x hx
            rcases hrec x hx with h | h
            · rw [h]
              simp [hwbne]
            · rw [h]
              simp only [hab2]
              exact fun hh => by cases hh
          rw [hnil]
          simp [List.filter, hbb]
        · show (none : Option Nat) ≠ some b
          simp


/-- C6.  In a room whose player list is the two distinct players `a`
and `b`, when `a` departs — by disconnect (`closeEvt`) or by a
`rematch` request — the room leaves the registry, its deadline timer
is cancelled, `b` receives exactly one `opponent_left` (and, for the
rematch departure, no other message of the step is addressed to `b`),
and `b` is not placed into the waiting slot.  When both entries of the
room's list belong to the departing player (the self-paired room), the
close deletes the room silently: no message at all is sent. -/
theorem departure_semantics (o : Nat → ItemType) (s : ServerState)
    (a b now : Nat) (room : Room)
    (hroom : getRoomByPlayer s a = some room)
    (hab : b ≠ a)
    (hopb : isOpenS s b = true)
    (hwb : s.waiting ≠ some b)
    (htimer : s.timers.count room.rid ≤ 1)
    (hfresh : room.rid ≠ s.roomSeq) :
    (room.players = [a, b] ∨ room.players = [b, a] →
      (roomOf (step o s (Ev.closeEvt a)) room.rid = none ∧
       room.rid ∉ (step o s (Ev.closeEvt a)).timers ∧
       (step o s (Ev.closeEvt a)).outbox = s.outbox ++ [(b, Msg.opponent_left)] ∧
       (step o s (Ev.closeEvt a)).waiting ≠ some b) ∧
      (roomOf (step o s (Ev.rematch a now)) room.rid = none ∧
       room.rid ∉ (step o s (Ev.rematch a now)).timers ∧
       ((step o s (Ev.rematch a now)).outbox.drop s.outbox.length).filter
         (fun m => m.1 == b) = [(b, Msg.opponent_left)] ∧
       (step o s (Ev.rematch a now)).waiting ≠ some b)) ∧
    (room.players = [a, a] →
      roomOf (step o s (Ev.closeEvt a)) room.rid = none ∧
      room.rid ∉ (step o s (Ev.closeEvt a)).timers ∧
      (step o s (Ev.closeEvt a)).outbox = s.outbox) := by
  obtain ⟨pa, hpa⟩ : ∃ pa, playerOf s a = some pa := by
    unfold getRoomByPlayer at hroom
    cases hp : playerOf s a with
    | none =>
        simp only [hp] at hroom
        exact absurd hroom (by simp)
    | some p => exact ⟨p, rfl⟩
  have hroomc : getRoomByPlayer { setClosed s a with
      waiting := match (setClosed s a).waiting with
        | some w => if w == a then none else some w
        | none => none } a = some room :=
    (getRoomByPlayer_eq_of _ s a (playerOf_setClosed_roomId s a a) rfl).trans hroom
  have hstep : step o s (Ev.closeEvt a) = leaveRoom { setClosed s a with
      waiting := match (setClosed s a).waiting with
        | some w => if w == a then none else some w
        | none => none } a := rfl
  have hopb2 : (((s.players.find? (fun x => x.pid == b)).map
      (fun x => x.wsOpen)).getD false) = true := hopb
  constructor
  · intro hplayers
    constructor
    · rw [hstep, leaveRoom_two _ a b room hroomc hplayers hab]
      refine ⟨roomOf_filter_self, not_mem_erase_of_count_le_one htimer, ?_, ?_⟩
      · rw [closeRoomS_outbox]
        show s.outbox ++
          ((if ((((s.players.map
              (fun x => if x.pid == a then { x with wsOpen := false } else x)).map
              (fun x => if x.pid == a then { x with roomId := none } else x)).find?
              (fun x => x.pid == b)).map (fun x => x.wsOpen)).getD false = true
            then [(b, Msg.opponent_left)] else []) ++ []) =
          s.outbox ++ [(b, Msg.opponent_left)]
        rw [setRoomId_players_open, setClosed_players_open_ne s.players a b hab, hopb2]
        simp
      · show (match s.waiting with
          | some w => if w == a then none else some w
          | none => none) ≠ some b
        rcases hsw : s.waiting with _ | w
        · simp
        · rw [hsw] at hwb
          cases hwa : (w == a) with
          | true => simp [hwa]
          | false => simpa [hwa] using hwb
    · have hstepr : step o s (Ev.rematch a now) = pairOrWait (leaveRoom s a) a now := by
        show (match playerOf s a with
          | none => s
          | some _ => pairOrWait (leaveRoom s a) a now) = _
        rw [hpa]
      rw [hstepr, leaveRoom_two s a b room hroom hplayers hab]
      refine pairOrWait_departure_facts s _ a b room.rid now rfl ?_ ?_
        roomOf_filter_self (not_mem_erase_of_count_le_one htimer) rfl hab hwb hfresh
      · intro q
        show ((((s.players.map
            (fun x => if x.pid == a then { x with roomId := none } else x)).find?
            (fun x => x.pid == q)).map (fun x => x.wsOpen)).getD false) = isOpenS s q
        rw [setRoomId_players_open]
        rfl
      · rw [closeRoomS_outbox]
        show s.outbox ++
          ((if (((s.players.map
              (fun x => if x.pid == a then { x with roomId := none } else x)).find?
              (fun x => x.pid == b)).map (fun x => x.wsOpen)).getD false = true
            then [(b, Msg.opponent_left)] else []) ++ []) =
          s.outbox ++ [(b, Msg.opponent_left)]
        rw [setRoomId_players_open, hopb2]
        simp
  · intro hpl2
    rw [hstep, leaveRoom_self _ a room hroomc hpl2]
    exact ⟨roomOf_filter_self, not_mem_erase_of_count_le_one htimer, rfl⟩

/-- C6 witness: player 1 leaves the concrete two-player room by close
and (in a second run) by rematch; player 2 gets exactly one
`opponent_left`, the room and its timer are gone, and player 2 is not
queued. -/
theorem departure_semantics_witness :
    let o0 : Nat → ItemType := fun _ => ItemType.orb
    let s0 := applyEvents o0 initState [Ev.connect 0, Ev.connect 0]
    let room0 : Room := { rid := 1, players := [1, 2], scores := [(1, 0), (2, 0)]
                          states := [(1, initPState), (2, initPState)], endAt := 60000 }
    (roomOf (step o0 s0 (Ev.closeEvt 1)) room0.rid = none ∧
     room0.rid ∉ (step o0 s0 (Ev.closeEvt 1)).timers ∧
     (step o0 s0 (Ev.closeEvt 1)).outbox = s0.outbox ++ [(2, Msg.opponent_left)] ∧
     (step o0 s0 (Ev.closeEvt 1)).waiting ≠ some 2) ∧
    (roomOf (step o0 s0 (Ev.rematch 1 100)) room0.rid = none ∧
     room0.rid ∉ (step o0 s0 (Ev.rematch 1 100)).timers ∧
     ((step o0 s0 (Ev.rematch 1 100)).outbox.drop s0.outbox.length).filter
       (fun m => m.1 == 2) = [(2, Msg.opponent_left)] ∧
     (step o0 s0 (Ev.rematch 1 100)).waiting ≠ some 2) := by
  intro o0 s0 room0
  exact (departure_semantics o0 s0 1 2 100 room0 (by decide) (by decide) (by decide)
    (by decide) (by decide) (by decide)).1 (Or.inl rfl)

/-! ### C7: eviction of a waiting player whose channel dies -/

/-- C7 counterexample: the claim says a waiting player is never
proactively removed from the slot when the channel closes; but in a
concrete run player 1 occupies the slot and their close event —
through `detachFromWaiting` in the `close` handler — empties it. -/
theorem waiting_evicted_on_close_counterexample :
    (applyEvents (fun _ => ItemType.orb) initState [Ev.connect 0]).waiting = some 1 ∧
    (applyEvents (fun _ => ItemType.orb) initState
      [Ev.connect 0, Ev.closeEvt 1]).waiting = none := by
  constructor <;> decide

/-- C7 amended.  A waiting player's channel death is handled twice
over: (1) when the close event for the occupant's own channel fires,
the occupant IS proactively removed from the slot
(`detachFromWaiting`); (2) the transport losing the connection before
the close callback runs leaves the slot untouched; and (3) in that
window, a new arrival at `pairOrWait` finds the occupant's channel not
open and silently displaces them: the newcomer takes the slot and gets
`waiting`, no match starts, and the dead occupant is told nothing. -/
theorem waiting_eviction_semantics (o : Nat → ItemType) (s : ServerState) (w : Nat)
    (hw : s.waiting = some w) :
    (step o s (Ev.closeEvt w)).waiting = none ∧
    (step o s (Ev.chanDie w)).waiting = some w ∧
    (∀ now pw, playerOf s w = some pw → pw.wsOpen = false →
      playerOf s s.playerSeq = none →
      (step o s (Ev.connect now)).waiting = some s.playerSeq ∧
      (step o s (Ev.connect now)).rooms = s.rooms ∧
      (step o s (Ev.connect now)).outbox = s.outbox ++ [(s.playerSeq, Msg.waiting)]) := by
  refine ⟨?_, ?_, ?_⟩
  · show (leaveRoom _ w).waiting = none
    rw [leaveRoom_waiting]
    show (match (setClosed s w).waiting with
      | some v => if v == w then none else some v
      | none => none) = none
    have : (setClosed s w).waiting = some w := hw
    rw [this]
    simp
  · exact hw
  · intro now pw hpw hdead hfresh
    have hpw2 : s.players.find? (fun p => p.pid == w) = some pw := hpw
    have hfresh2 : s.players.find? (fun p => p.pid == s.playerSeq) = none := hfresh
    have hw1 : isOpenS { s with
        players := s.players ++ [{ pid := s.playerSeq, wsOpen := true, roomId := none }]
        playerSeq := s.playerSeq + 1 } w = false := by
      have hfind : playerOf { s with
          players := s.players ++ [{ pid := s.playerSeq, wsOpen := true, roomId := none }]
          playerSeq := s.playerSeq + 1 } w = some pw := find?_append_some hpw2
      unfold isOpenS
      rw [hfind]
      simpa using hdead
    have hnew : isOpenS { s with
        players := s.players ++ [{ pid := s.playerSeq, wsOpen := true, roomId := none }]
        playerSeq := s.playerSeq + 1 } s.playerSeq = true := by
      have hfind : playerOf { s with
          players := s.players ++ [{ pid := s.playerSeq, wsOpen := true, roomId := none }]
          playerSeq := s.playerSeq + 1 } s.playerSeq =
          ([{ pid := s.playerSeq, wsOpen := true, roomId := none }] : List SPlayer).find?
            (fun p => p.pid == s.playerSeq) := find?_append_none hfresh2
      unfold isOpenS
      rw [hfind]
      simp [List.find?]
    show (pairOrWait _ s.playerSeq now).waiting = some s.playerSeq ∧
      (pairOrWait _ s.playerSeq now).rooms = s.rooms ∧
      (pairOrWait _ s.playerSeq now).outbox = s.outbox ++ [(s.playerSeq, Msg.waiting)]
    have hwv : ({ s with
        players := s.players ++ [{ pid := s.playerSeq, wsOpen := true, roomId := none }]
        playerSeq := s.playerSeq + 1 } : ServerState).waiting = some w := hw
    rw [pairOrWait_dead_slot _ _ _ w hwv hw1]
    refine ⟨rfl, rfl, ?_⟩
    simp [emit, sendTo, hnew]

/-- C7 amended witness: player 1 connects, their channel dies without
a close event; all three behaviours at the concrete state. -/
theorem waiting_eviction_semantics_witness :
    let o0 : Nat → ItemType := fun _ => ItemType.orb
    let s0 := applyEvents o0 initState [Ev.connect 0, Ev.chanDie 1]
    (step o0 s0 (Ev.closeEvt 1)).waiting = none ∧
    (step o0 s0 (Ev.chanDie 1)).waiting = some 1 ∧
    (∀ now pw, playerOf s0 1 = some pw → pw.wsOpen = false →
      playerOf s0 s0.playerSeq = none →
      (step o0 s0 (Ev.connect now)).waiting = some s0.playerSeq ∧
      (step o0 s0 (Ev.connect now)).rooms = s0.rooms ∧
      (step o0 s0 (Ev.connect now)).outbox = s0.outbox ++ [(s0.playerSeq, Msg.waiting)]) := by
  intro o0 s0
  exact waiting_eviction_semantics o0 s0 1 (by decide)

/-! ### C4: found scoring -/

/-- C4.  A `found` message: with no current room, or at/after the
room's `endAt`, the whole server state (registry, scores, trace) is
unchanged; otherwise exactly the sender's score entry grows by 1,
every other entry is untouched, and both players receive `score_update`
carrying the full updated score map. -/
theorem found_scoring (o : Nat → ItemType) (s : ServerState) (pid now : Nat) :
    (getRoomByPlayer s pid = none → step o s (Ev.found pid now) = s) ∧
    (∀ room, getRoomByPlayer s pid = some room → now ≥ room.endAt →
      step o s (Ev.found pid now) = s) ∧
    (∀ room a b, getRoomByPlayer s pid = some room → ¬ now ≥ room.endAt →
      room.players = [a, b] → isOpenS s a = true → isOpenS s b = true →
      roomOf (step o s (Ev.found pid now)) room.rid =
        some { room with
          scores := objSet room.scores pid ((objGet room.scores pid).getD 0 + 1) } ∧
      objGet (objSet room.scores pid ((objGet room.scores pid).getD 0 + 1)) pid =
        some ((objGet room.scores pid).getD 0 + 1) ∧
      (∀ q, q ≠ pid →
        objGet (objSet room.scores pid ((objGet room.scores pid).getD 0 + 1)) q =
          objGet room.scores q) ∧
      (step o s (Ev.found pid now)).outbox = s.outbox ++
        [(a, Msg.score_update (objSet room.scores pid ((objGet room.scores pid).getD 0 + 1))),
         (b, Msg.score_update (objSet room.scores pid ((objGet room.scores pid).getD 0 + 1)))]) := by
  refine ⟨?_, ?_, ?_⟩
  · intro h
    simp only [step, h]
  · intro room hroom h2
    have hfind := getRoomByPlayer_roomOf hroom
    unfold roomOf at hfind
    simp only [step, hroom, handleFound, if_pos h2, updateRoom_found_self hfind]
    exact emit_nil s
  · intro room a b hroom h2 hplayers hopa hopb
    have hfind := getRoomByPlayer_roomOf hroom
    unfold roomOf at hfind
    simp only [step, hroom, handleFound, if_neg h2]
    refine ⟨?_, objGet_objSet_self _ _ _, fun q hq => objGet_objSet_ne _ _ _ _ hq, ?_⟩
    · exact updateRoom_find hfind rfl
    · simp [emit, broadcastTo, sendTo, hplayers, hopa, hopb]

/-- C4 witness: in a concrete freshly created room, player 1's `found`
at time 100 bumps exactly their entry and both players get the map. -/
theorem found_scoring_witness :
    let o0 : Nat → ItemType := fun _ => ItemType.orb
    let s0 := applyEvents o0 initState [Ev.connect 0, Ev.connect 0]
    let room0 : Room := { rid := 1, players := [1, 2], scores := [(1, 0), (2, 0)]
                          states := [(1, initPState), (2, initPState)], endAt := 60000 }
    roomOf (step o0 s0 (Ev.found 1 100)) room0.rid =
      some { room0 with
        scores := objSet room0.scores 1 ((objGet room0.scores 1).getD 0 + 1) } ∧
    objGet (objSet room0.scores 1 ((objGet room0.scores 1).getD 0 + 1)) 1 =
      some ((objGet room0.scores 1).getD 0 + 1) ∧
    (∀ q, q ≠ 1 →
      objGet (objSet room0.scores 1 ((objGet room0.scores 1).getD 0 + 1)) q =
        objGet room0.scores q) ∧
    (step o0 s0 (Ev.found 1 100)).outbox = s0.outbox ++
      [(1, Msg.score_update (objSet room0.scores 1 ((objGet room0.scores 1).getD 0 + 1))),
       (2, Msg.score_update (objSet room0.scores 1 ((objGet room0.scores 1).getD 0 + 1)))] := by
  intro o0 s0 room0
  exact (found_scoring o0 s0 1 100).2.2 room0 1 2 (by decide) (by decide) rfl
    (by decide) (by decide)

/-! ### C5: item use disabled at match end and in the last 3 seconds -/

/-- C5.  A `use_item` message from a player in a room is a complete
no-op on the server state — no room, score, player, timer, or
outbox change — whenever `now ≥ endAt` or `endAt - now < 3000`. -/
theorem use_item_disabled_window (o : Nat → ItemType) (s : ServerState)
    (pid itemId now : Nat) (room : Room)
    (hroom : getRoomByPlayer s pid = some room)
    (hcond : now ≥ room.endAt ∨ room.endAt - now < 3000) :
    step o s (Ev.useItem pid itemId now) = s := by
  have hfind := getRoomByPlayer_roomOf hroom
  unfold roomOf at hfind
  have hnoop : handleUseItem (isOpenS s) room pid itemId now = (room, []) := by
    rcases hcond with h | h
    · unfold handleUseItem
      rw [if_pos h]
    · unfold handleUseItem
      by_cases h1 : now ≥ room.endAt
      · rw [if_pos h1]
      · rw [if_neg h1, if_pos h]
  simp only [step, hroom, hnoop, updateRoom_found_self hfind]
  exact emit_nil s

/-- C5 witness: in a concrete two-player room ending at 60000, a
`use_item` at 58000 (within the final 3 seconds) changes nothing. -/
theorem use_item_disabled_window_witness :
    step (fun _ => ItemType.orb)
      (applyEvents (fun _ => ItemType.orb) initState [Ev.connect 0, Ev.connect 0])
      (Ev.useItem 1 1 58000) =
      applyEvents (fun _ => ItemType.orb) initState [Ev.connect 0, Ev.connect 0] := by
  have h := use_item_disabled_window (fun _ => ItemType.orb)
    (applyEvents (fun _ => ItemType.orb) initState [Ev.connect 0, Ev.connect 0])
    1 1 58000
    { rid := 1, players := [1, 2]
      scores := [(1, 0), (2, 0)]
      states := [(1, initPState), (2, initPState)]
      endAt := 60000 }
    (by decide) (by decide)
  exact h

/-! ### C2: one item use per distinct stage value -/

/-- C2.  When a `use_item` call succeeds (all guards pass and the item
id is found), the resulting state satisfies `lastItemUsedStage =
stageReached`, and from such a state any further `use_item` call — any
item id, any time, so in particular a distinct valid inventory item
with the 8-second cooldown elapsed — is a silent no-op: the room is
returned unchanged and no message is sent.  Only raising
`stageReached` can falsify the gate again. -/
theorem use_item_reuse_gate (isOpen : Nat → Bool) (room : Room)
    (pid itemId : Nat) (now : Nat) (me : PState) (item : Item)
    (hst : objGet room.states pid = some me)
    (h1 : ¬ now ≥ room.endAt) (h2 : ¬ room.endAt - now < 3000)
    (h3 : ¬ now - me.lastItemUsedAt < ITEM_COOLDOWN_MS)
    (h4 : ¬ me.lastItemUsedStage = me.stageReached)
    (h5 : me.inventory.find? (fun x => x.id == itemId) = some item) :
    ∃ me1, objGet (handleUseItem isOpen room pid itemId now).1.states pid = some me1 ∧
      me1.lastItemUsedStage = me1.stageReached ∧
      ∀ itemId2 now2,
        handleUseItem isOpen (handleUseItem isOpen room pid itemId now).1 pid itemId2 now2 =
          ((handleUseItem isOpen room pid itemId now).1, []) := by
  obtain ⟨me1, hget, hlast, hstage⟩ :=
    handleUseItem_success_state isOpen room pid itemId now me item hst h1 h2 h3 h4 h5
  refine ⟨me1, hget, hlast.trans hstage.symm, ?_⟩
  intro itemId2 now2
  exact handleUseItem_gate_noop isOpen _ pid itemId2 now2 me1 hget (hlast.trans hstage.symm)

/-- C2 witness: a concrete two-player room in which player 1 uses a
shield item successfully; the second call with the other (orb) item and
ample elapsed time is a no-op. -/
theorem use_item_reuse_gate_witness :
    let room : Room :=
      { rid := 1, players := [1, 2]
        scores := [(1, 0), (2, 0)]
        states := [(1, { initPState with
            inventory := [{ id := 1, type := ItemType.shield },
                          { id := 2, type := ItemType.orb }]
            stageReached := 5 }), (2, initPState)]
        endAt := 60000 }
    ∃ me1, objGet (handleUseItem (fun _ => true) room 1 1 10000).1.states 1 = some me1 ∧
      me1.lastItemUsedStage = me1.stageReached ∧
      ∀ itemId2 now2,
        handleUseItem (fun _ => true) (handleUseItem (fun _ => true) room 1 1 10000).1 1 itemId2 now2 =
          ((handleUseItem (fun _ => true) room 1 1 10000).1, []) := by
  intro room
  exact use_item_reuse_gate (fun _ => true) room 1 1 10000
    ({ initPState with
        inventory := [{ id := 1, type := ItemType.shield }, { id := 2, type := ItemType.orb }]
        stageReached := 5 })
    { id := 1, type := ItemType.shield }
    (by decide) (by decide) (by decide) (by decide) (by decide) (by decide)

/-! ### C3: smoke versus shield -/

/-- C3.  A successful `use_item` of a smoke item by player `a` whose
opponent in the room is `b`:
if `b.shieldOn` is set, the flag is cleared (the rest of `b`'s state is
untouched), the blocked `item_applied` is delivered to both players,
`b` alone receives the `shield_consumed` inventory update, and no
message of the step carries an effect expiry; if `b.shieldOn` is
clear, the `item_applied` naming `b` with `effectUntil =
now + SMOKE_DURATION_MS` is delivered to both players and `b`'s state
is completely unchanged. -/
theorem smoke_resolution (isOpen : Nat → Bool) (room : Room)
    (a b itemId : Nat) (now : Nat) (me ts : PState) (item : Item)
    (hplayers : room.players = [a, b] ∨ room.players = [b, a])
    (hab : b ≠ a)
    (hopa : isOpen a = true) (hopb : isOpen b = true)
    (hst : objGet room.states a = some me)
    (hts : objGet room.states b = some ts)
    (h1 : ¬ now ≥ room.endAt) (h2 : ¬ room.endAt - now < 3000)
    (h3 : ¬ now - me.lastItemUsedAt < ITEM_COOLDOWN_MS)
    (h4 : ¬ me.lastItemUsedStage = me.stageReached)
    (h5 : me.inventory.find? (fun x => x.id == itemId) = some item)
    (hsmoke : item.type = ItemType.smoke) :
    (ts.shieldOn = true →
      objGet (handleUseItem isOpen room a itemId now).1.states b =
        some { ts with shieldOn := false } ∧
      (a, Msg.item_applied a ItemType.smoke (some b) none true) ∈
        (handleUseItem isOpen room a itemId now).2 ∧
      (b, Msg.item_applied a ItemType.smoke (some b) none true) ∈
        (handleUseItem isOpen room a itemId now).2 ∧
      (b, Msg.inventory_update ts.inventory Reason.shield_consumed) ∈
        (handleUseItem isOpen room a itemId now).2 ∧
      (∀ items, (a, Msg.inventory_update items Reason.shield_consumed) ∉
        (handleUseItem isOpen room a itemId now).2) ∧
      (∀ p act ty tgt eff blk,
        (p, Msg.item_applied act ty tgt (some eff) blk) ∉
          (handleUseItem isOpen room a itemId now).2)) ∧
    (ts.shieldOn = false →
      objGet (handleUseItem isOpen room a itemId now).1.states b = some ts ∧
      (a, Msg.item_applied a ItemType.smoke (some b) (some (now + SMOKE_DURATION_MS)) false) ∈
        (handleUseItem isOpen room a itemId now).2 ∧
      (b, Msg.item_applied a ItemType.smoke (some b) (some (now + SMOKE_DURATION_MS)) false) ∈
        (handleUseItem isOpen room a itemId now).2) := by
  have hba : (b == a) = false := by simpa using hab
  have hfind : room.players.find? (fun q => !(q == a)) = some b := by
    rcases hplayers with h | h <;> simp [h, List.find?, hba]
  unfold handleUseItem
  simp only [hst, if_neg h1, if_neg h2, if_neg h3, if_neg h4, h5, hsmoke, hfind, hts]
  constructor
  · intro hsh
    simp only [if_pos hsh]
    refine ⟨?_, ?_, ?_, ?_, ?_, ?_⟩
    · exact objGet_objSet_self _ _ _
    · rcases hplayers with h | h <;>
        simp [setState, h, broadcastTo, sendTo, hopa, hopb]
    · rcases hplayers with h | h <;>
        simp [setState, h, broadcastTo, sendTo, hopa, hopb]
    · rcases hplayers with h | h <;>
        simp [setState, h, broadcastTo, sendTo, hopa, hopb]
    · intro items
      rcases hplayers with h | h <;>
        simp [setState, h, broadcastTo, sendTo, hopa, hopb, Ne.symm hab]
    · intro p act ty tgt eff blk
      rcases hplayers with h | h <;>
        simp [setState, h, broadcastTo, sendTo, hopa, hopb]
  · intro hsh
    simp only [hsh]
    refine ⟨?_, ?_, ?_⟩
    · exact (objGet_objSet_ne _ _ _ _ hab).trans hts
    · rcases hplayers with h | h <;>
        simp [setState, h, broadcastTo, sendTo, hopa, hopb]
    · rcases hplayers with h | h <;>
        simp [setState, h, broadcastTo, sendTo, hopa, hopb]

/-- C3 witness: player 1 smokes the shielded player 2 in a concrete
room. -/
theorem smoke_resolution_witness :
    let room : Room :=
      { rid := 1, players := [1, 2]
        scores := [(1, 0), (2, 0)]
        states := [(1, { initPState with
            inventory := [{ id := 1, type := ItemType.smoke }]
            stageReached := 5 }),
          (2, { initPState with shieldOn := true })]
        endAt := 60000 }
    ({ initPState with shieldOn := true } : PState).shieldOn = true →
      objGet (handleUseItem (fun _ => true) room 1 1 10000).1.states 2 =
        some { ({ initPState with shieldOn := true } : PState) with shieldOn := false } ∧
      (1, Msg.item_applied 1 ItemType.smoke (some 2) none true) ∈
        (handleUseItem (fun _ => true) room 1 1 10000).2 ∧
      (2, Msg.item_applied 1 ItemType.smoke (some 2) none true) ∈
        (handleUseItem (fun _ => true) room 1 1 10000).2 ∧
      (2, Msg.inventory_update ({ initPState with shieldOn := true } : PState).inventory
          Reason.shield_consumed) ∈ (handleUseItem (fun _ => true) room 1 1 10000).2 ∧
      (∀ items, (1, Msg.inventory_update items Reason.shield_consumed) ∉
        (handleUseItem (fun _ => true) room 1 1 10000).2) ∧
      (∀ p act ty tgt eff blk,
        (p, Msg.item_applied act ty tgt (some eff) blk) ∉
          (handleUseItem (fun _ => true) room 1 1 10000).2) := by
  intro room
  exact (smoke_resolution (fun _ => true) room 1 2 1 10000
    ({ initPState with inventory := [{ id := 1, type := ItemType.smoke }], stageReached := 5 })
    ({ initPState with shieldOn := true })
    { id := 1, type := ItemType.smoke }
    (Or.inl rfl) (by decide) rfl rfl (by decide) (by decide) (by decide) (by decide)
    (by decide) (by decide) (by decide) rfl).1

/-! ### C8: stage coercion and monotonicity -/

/-- C8.  (1) A `stage_reached` message with a non-finite value changes
nothing at all.  (2) A finite value `q` is coerced to
`max 1 ⌊q⌋` and the player's `stageReached` becomes the maximum of its
current value and the coerced one.  (3) Across every sequence of
events, for a room id that stays in the registry (under the server's
registry invariant `RegInv`), `stageReached` and `nextGrantStage` of
every player entry never decrease. -/
theorem stage_reached_semantics (o : Nat → ItemType) :
    (∀ (s : ServerState) (pid : Nat), step o s (Ev.stage pid none) = s) ∧
    (∀ (s : ServerState) (pid : Nat) (q : ℚ) (room : Room) (st : PState),
      getRoomByPlayer s pid = some room →
      objGet room.states pid = some st →
      ∃ st2, roomOf (step o s (Ev.stage pid (some q))) room.rid =
          some (handleStageReached (isOpenS s) o s.itemSeq room pid (some q)).1 ∧
        objGet (handleStageReached (isOpenS s) o s.itemSeq room pid (some q)).1.states pid =
          some st2 ∧
        st2.stageReached = max st.stageReached (max 1 ⌊q⌋)) ∧
    (∀ (evs : List Ev) (s : ServerState) (rid pid : Nat) (r r2 : Room) (st st2 : PState),
      RegInv s →
      roomOf s rid = some r → objGet r.states pid = some st →
      roomOf (applyEvents o s evs) rid = some r2 →
      objGet r2.states pid = some st2 →
      st.stageReached ≤ st2.stageReached ∧ st.nextGrantStage ≤ st2.nextGrantStage) := by
  refine ⟨?_, ?_, ?_⟩
  · intro s pid
    cases hr : getRoomByPlayer s pid with
    | none => simp only [step, hr]
    | some room =>
        have hnone : handleStageReached (isOpenS s) o s.itemSeq room pid none =
            (room, s.itemSeq, []) := by
          cases hst : objGet room.states pid <;> simp [handleStageReached, hst]
        have hfind := getRoomByPlayer_roomOf hr
        unfold roomOf at hfind
        simp only [step, hr, hnone, updateRoom_found_self hfind]
        exact emit_nil s
  · intro s pid q room st hroom hst
    have hfind := getRoomByPlayer_roomOf hroom
    unfold roomOf at hfind
    have hrid := (handleStageReached_fields (isOpenS s) o s.itemSeq room pid (some q)).1
    refine ⟨(grantLoop o s.itemSeq
      { st with stageReached := max st.stageReached (max 1 ⌊q⌋) }).1, ?_, ?_, ?_⟩
    · simp only [step, hroom]
      exact updateRoom_find hfind hrid
    · simp only [handleStageReached, hst, maybeGrantItems, setState, objGet_objSet_self]
    · rw [grantLoop_stage]
  · intro evs s rid pid r r2 st st2 hinv h1 hst h2 hst2
    exact applyEvents_mono o evs s rid pid r r2 st st2 hinv h1 hst h2 hst2

/-- C8 witness: in a concrete room, a non-finite stage is a no-op, a
stage of `7/2` floors to 3, and a concrete event sequence only raises
the counters. -/
theorem stage_reached_semantics_witness :
    let o0 : Nat → ItemType := fun _ => ItemType.orb
    let s0 := applyEvents o0 initState [Ev.connect 0, Ev.connect 0]
    let room0 : Room := { rid := 1, players := [1, 2], scores := [(1, 0), (2, 0)]
                          states := [(1, initPState), (2, initPState)], endAt := 60000 }
    (step o0 s0 (Ev.stage 1 none) = s0) ∧
    (∃ st2, roomOf (step o0 s0 (Ev.stage 1 (some (7 / 2)))) room0.rid =
        some (handleStageReached (isOpenS s0) o0 s0.itemSeq room0 1 (some (7 / 2))).1 ∧
      objGet (handleStageReached (isOpenS s0) o0 s0.itemSeq room0 1 (some (7 / 2))).1.states 1 =
        some st2 ∧
      st2.stageReached = max initPState.stageReached (max 1 ⌊(7 / 2 : ℚ)⌋)) ∧
    (initPState.stageReached ≤
        ({ initPState with
            inventory := [{ id := 1, type := ItemType.orb }]
            nextGrantStage := 10, stageReached := 5 } : PState).stageReached ∧
      initPState.nextGrantStage ≤
        ({ initPState with
            inventory := [{ id := 1, type := ItemType.orb }]
            nextGrantStage := 10, stageReached := 5 } : PState).nextGrantStage) := by
  intro o0 s0 room0
  refine ⟨(stage_reached_semantics o0).1 s0 1, ?_, ?_⟩
  · exact (stage_reached_semantics o0).2.1 s0 1 (7 / 2) room0 initPState
      (by decide) (by decide)
  · exact (stage_reached_semantics o0).2.2 [Ev.stage 1 (some 5)] s0 1 1 room0
      ({ room0 with states := [(1, { initPState with
          inventory := [{ id := 1, type := ItemType.orb }]
          nextGrantStage := 10, stageReached := 5 }), (2, initPState)] })
      initPState
      ({ initPState with
          inventory := [{ id := 1, type := ItemType.orb }]
          nextGrantStage := 10, stageReached := 5 })
      ⟨by decide, by decide⟩ (by decide) (by decide) (by decide) (by decide)

/-! ### C9: every registry room has exactly two player entries -/

/-- Server states reachable from start. -/
inductive Reachable (o : Nat → ItemType) : ServerState → Prop where
  | init : Reachable o initState
  | next {s : ServerState} (e : Ev) : Reachable o s → Reachable o (step o s e)

/-- C9 counterexample: the no-opponent branch of smoke resolution IS
reachable for a room in the registry.  A waiting player who sends
`rematch` is paired with themselves (`pairOrWait` pops the slot — them
— and `beginMatch` builds the room `[1, 1]`, which stays registered).
Their smoke use then consumes the item, but `players.find?` finds no
other id, so the handler returns before any message: the step's outbox
delta is empty — not even the final `consume` inventory update. -/
theorem smoke_no_opponent_reachable_counterexample :
    let o0 : Nat → ItemType := fun _ => ItemType.smoke
    let s0 := applyEvents o0 initState [Ev.connect 0, Ev.rematch 1 0, Ev.stage 1 (some 5)]
    let s1 := step o0 s0 (Ev.useItem 1 1 10000)
    roomOf s0 1 = some
      { rid := 1, players := [1, 1], scores := [(1, 0)]
        states := [(1, { initPState with
          inventory := [{ id := 1, type := ItemType.smoke }]
          nextGrantStage := 10, stageReached := 5 })]
        endAt := 60000 } ∧
    roomOf s1 1 = some
      { rid := 1, players := [1, 1], scores := [(1, 0)]
        states := [(1, { initPState with
          inventory := []
          nextGrantStage := 10, lastItemUsedAt := 10000
          lastItemUsedStage := 5, stageReached := 5 })]
        endAt := 60000 } ∧
    s1.outbox = s0.outbox := by
  exact ⟨by decide, by decide, by decide⟩

/-- C9 amended.  In every reachable server state, each registry room's
`players` list has exactly two entries — but the entries need not be
distinct players: a waiting player's `rematch` self-pairs them into a
room `[p, p]`.  The no-opponent branch of smoke resolution is
unreachable only for rooms whose two entries are distinct: there the
opponent lookup always yields a target different from the actor. -/
theorem registry_rooms_two_entries (o : Nat → ItemType) (s : ServerState)
    (h : Reachable o s) :
    (∀ r ∈ s.rooms, r.players.length = 2) ∧
    (∀ r ∈ s.rooms, ∀ x y pid, r.players = [x, y] → x ≠ y →
      ∃ target, r.players.find? (fun q => !(q == pid)) = some target ∧ target ≠ pid) := by
  constructor
  · induction h with
    | init =>
        intro r hr
        simp [initState] at hr
    | next e hs ih =>
        intro r hr
        rcases step_rooms_origin _ _ e r hr with ⟨r1, hr1m, _, hpl, _⟩ | ⟨hl, _, _⟩
        · rw [← hpl]
          exact ih r1 hr1m
        · exact hl
  · intro r _ x y pid hxy hne
    rw [hxy]
    by_cases hx : x = pid
    · subst hx
      have hyb : (y == x) = false := by
        simp only [beq_eq_false_iff_ne]
        exact fun hh => hne hh.symm
      refine ⟨y, ?_, fun hh => hne hh.symm⟩
      simp [List.find?, hyb]
    · have hxb : (x == pid) = false := by simpa using hx
      refine ⟨x, ?_, hx⟩
      simp [List.find?, hxb]

/-- C9 amended witness: the two-player room of a concrete run. -/
theorem registry_rooms_two_entries_witness :
    let o0 : Nat → ItemType := fun _ => ItemType.orb
    let s0 := applyEvents o0 initState [Ev.connect 0, Ev.connect 0]
    (∀ r ∈ s0.rooms, r.players.length = 2) ∧
    (∀ r ∈ s0.rooms, ∀ x y pid, r.players = [x, y] → x ≠ y →
      ∃ target, r.players.find? (fun q => !(q == pid)) = some target ∧ target ≠ pid) := by
  intro o0 s0
  have h : Reachable o0 s0 :=
    Reachable.next (Ev.connect 0) (Reachable.next (Ev.connect 0) Reachable.init)
  exact registry_rooms_two_entries o0 s0 h

/-! ### C1: grant loss on a full inventory -/

/-- C1.  From the initial per-match grant state (empty inventory,
`nextGrantStage = 5`, `stageReached = 1`; the use-item bookkeeping
fields are irrelevant to the grant loop and universally quantified),
processing `stage_reached` values 5, then 10, then 15 — for every
random item stream and every item counter — leaves the inventory
length at most `INVENTORY_MAX = 2` and `nextGrantStage = 20`: the
third threshold's grant cycle finds the inventory full, appends
nothing, and still advances `nextGrantStage` by 5, so that grant is
permanently lost. -/
theorem stage_5_10_15_caps_inventory_and_skips_grant
    (o : Nat → ItemType) (seq lastAt : Nat) (lastStage : Int) (sh : Bool)
    (orb : Option Nat) :
    let st0 : PState :=
      { inventory := [], nextGrantStage := 5, lastItemUsedAt := lastAt
        lastItemUsedStage := lastStage, shieldOn := sh, stageReached := 1, orbUntil := orb }
    let r1 := handleStageCore o seq st0 5
    let r2 := handleStageCore o r1.2.1 r1.1 10
    let r3 := handleStageCore o r2.2.1 r2.1 15
    r3.1.inventory.length ≤ INVENTORY_MAX ∧ r3.1.nextGrantStage = 20 := by
  intro st0 r1 r2 r3
  have h5 : (⌊(5 : ℚ)⌋ : Int) = 5 := by norm_num
  have h10 : (⌊(10 : ℚ)⌋ : Int) = 10 := by norm_num
  have h15 : (⌊(15 : ℚ)⌋ : Int) = 15 := by norm_num
  have e1 : r1 = ({ st0 with
      inventory := [{ id := seq, type := o seq }]
      nextGrantStage := 10, stageReached := 5 }, seq + 1, 1) := by
    show handleStageCore o seq st0 5 = _
    rw [handleStageCore]
    simp only [h5, st0]
    rw [grantLoop_grant _ _ _ (by norm_num) (by simp [INVENTORY_MAX])]
    rw [grantLoop_stop _ _ _ (by norm_num [ITEM_STAGE_INTERVAL])]
    simp [ITEM_STAGE_INTERVAL]
  have e2 : r2 = ({ st0 with
      inventory := [{ id := seq, type := o seq }, { id := seq + 1, type := o (seq + 1) }]
      nextGrantStage := 15, stageReached := 10 }, seq + 2, 1) := by
    show handleStageCore o r1.2.1 r1.1 10 = _
    rw [e1, handleStageCore]
    simp only [h10]
    rw [grantLoop_grant _ _ _ (by norm_num) (by simp [INVENTORY_MAX])]
    rw [grantLoop_stop _ _ _ (by norm_num [ITEM_STAGE_INTERVAL])]
    simp [ITEM_STAGE_INTERVAL]
  have e3 : r3 = ({ st0 with
      inventory := [{ id := seq, type := o seq }, { id := seq + 1, type := o (seq + 1) }]
      nextGrantStage := 20, stageReached := 15 }, seq + 2, 0) := by
    show handleStageCore o r2.2.1 r2.1 15 = _
    rw [e2, handleStageCore]
    simp only [h15]
    rw [grantLoop_full _ _ _ (by norm_num) (by simp [INVENTORY_MAX])]
    rw [grantLoop_stop _ _ _ (by norm_num [ITEM_STAGE_INTERVAL])]
    simp [ITEM_STAGE_INTERVAL]
  rw [e3]
  simp [INVENTORY_MAX]
